import Mathlib

set_option maxRecDepth 100000

/-!
Verification development for the FINAL CUT terminal keyboard input decoder
(`final/input/fkeyboard.cpp`).  The decoder turns a raw byte stream into key
identifiers: it accumulates bytes in a fixed 512-byte FIFO buffer, classifies
buffer prefixes (mouse report / termcap table / generic table / single or
UTF-8 character), and pushes resolved identifiers into a bounded event queue.

The definitions below are a shallow embedding of `fkeyboard.cpp`.  Machine
integers are modelled as `Nat` with explicit `% 2 ^ 32` where the C++ code
can overflow; `char` buffer cells hold byte values `0..255`.  Real time is
abstracted: every call that the C++ code makes to `isKeypressTimeout()` is
fed the corresponding oracle boolean (one per processed input byte, since a
single resolution cascade runs in negligible time).  The escape-sequence
lookup tables and the poll/select results are external collaborators of the
decoder and enter the model as parameters.
-/

/-- Modelled from the spec: the FIFO input buffer capacity (`FIFO_BUF_SIZE`
from the class header, which is not part of the sources here); the spec gives
capacity C, e.g. 512. -/
def FIFO_BUF_SIZE : Nat := 512

/-- Modelled from the spec: the bound of the decoded-event queue
(`MAX_QUEUE_SIZE` from the class header, which is not part of the sources
here); the spec gives e.g. capacity 10,000. -/
def MAX_QUEUE_SIZE : Nat := 10000

/-- Modelled from the spec: `FKey::None`, the least element of the key
enumeration (the code compares `key > FKey::None` and seeds the UTF-8
accumulator with it, so it is the numeric zero of the 32-bit enum). -/
def FKey_None : Nat := 0

/-- Modelled from the spec: the `NOT_SET` sentinel, a reserved value of the
32-bit key enumeration distinct from every real key identifier. -/
def FKey_NOT_SET : Nat := 4294967295

/-- Modelled from the spec: the `FKey::Incomplete` sentinel, a reserved value
of the 32-bit key enumeration distinct from every real key identifier. -/
def FKey_Incomplete : Nat := 4294967294

/-- Modelled from the spec: the `FKey::Ctrl_space` identifier (a named key
value above the Unicode code-point range). -/
def FKey_Ctrl_space : Nat := 33554437

/-- Modelled from the spec: the `FKey::Backspace` identifier. -/
def FKey_Backspace : Nat := 33554438

/-- Modelled from the spec: the `FKey::X11mouse` identifier. -/
def FKey_X11mouse : Nat := 33554439

/-- Modelled from the spec: the `FKey::Extended_mouse` identifier. -/
def FKey_Extended_mouse : Nat := 33554440

/-- Modelled from the spec: the `FKey::Urxvt_mouse` identifier. -/
def FKey_Urxvt_mouse : Nat := 33554441

/-- Modelled from the spec: the `FKey::Meta_O` identifier. -/
def FKey_Meta_O : Nat := 33554442

/-- Modelled from the spec: the `FKey::Meta_left_square_bracket` identifier. -/
def FKey_Meta_left_square_bracket : Nat := 33554443

/-- Modelled from the spec: the `FKey::Meta_right_square_bracket` identifier. -/
def FKey_Meta_right_square_bracket : Nat := 33554444

/-- Reading a cell of a C byte array / NUL-terminated string: positions past
the end of the modelled list read as `0` (the zero fill of `fifo_buf`, or the
NUL terminator of a table string). -/
def byteAt (l : List Nat) (i : Nat) : Nat := l.getD i 0

/-- The comparison `std::strncmp(s, t, n) == 0` starting at offset `i`: scans at most `n`
positions, stopping early at the first difference or at a common NUL. -/
def strncmpEq (s t : List Nat) (i n : Nat) : Bool :=
  match n with
  | 0 => true
  | n + 1 =>
    let a := byteAt s i
    let b := byteAt t i
    if a ≠ b then false
    else if a = 0 then true
    else strncmpEq s t (i + 1) n

/-- The `std::strlen` scan on the zero-filled FIFO buffer: the index of the first NUL
byte. -/
def stringLength (l : List Nat) : Nat :=
  match l with
  | [] => 0
  | c :: rest => if c = 0 then 0 else stringLength rest + 1

/-- The ascending copy loop of the three buffer-consumption sites
(`fkeyboard.cpp` lines 320-321, 372-373, 419-420):
`for (n = len; n < FIFO_BUF_SIZE; n++) fifo_buf[n - len] = fifo_buf[n];`.
The parameter `n` is the loop counter. -/
def shiftLoopAux (b : List Nat) (len n : Nat) : Nat → List Nat
  | 0 => b
  | fuel + 1 =>
    if n < FIFO_BUF_SIZE then
      shiftLoopAux (b.set (n - len) (byteAt b n)) len (n + 1) fuel
    else b

/-- The copy loop, entered with counter `n`; the fuel `FIFO_BUF_SIZE - n`
equals the exact number of remaining iterations, so `shiftLoopAux` runs the
loop to completion. -/
def shiftLoop (b : List Nat) (len n : Nat) : List Nat :=
  shiftLoopAux b len n (FIFO_BUF_SIZE - n)

/-- The tail zero-fill loop of the three buffer-consumption sites
(`fkeyboard.cpp` lines 323-324, 375-376, 422-423):
`for (n = n - len; n < FIFO_BUF_SIZE; n++) fifo_buf[n] = 0;`. -/
def zeroLoopAux (b : List Nat) (n : Nat) : Nat → List Nat
  | 0 => b
  | fuel + 1 =>
    if n < FIFO_BUF_SIZE then
      zeroLoopAux (b.set n 0) (n + 1) fuel
    else b

/-- The zero-fill loop, entered with counter `n`; as with `shiftLoop` the
fuel `FIFO_BUF_SIZE - n` is the exact remaining iteration count. -/
def zeroLoop (b : List Nat) (n : Nat) : List Nat :=
  zeroLoopAux b n (FIFO_BUF_SIZE - n)

/-- Consuming `len` bytes from the front of the FIFO buffer: the shift loop
followed by the zero-fill loop.  After the first loop its counter holds
`max len FIFO_BUF_SIZE`, so the second loop starts at `FIFO_BUF_SIZE - len`
(as a truncated subtraction, matching the C computation `n - len`). -/
def removeFront (b : List Nat) (len : Nat) : List Nat :=
  zeroLoop (shiftLoop b len len) (FIFO_BUF_SIZE - len)

/-- One entry of an escape-sequence lookup table: a byte string, its stored
length, and the key identifier (`FKeyMap::KeyCapMap` / `KeyMap` entries). -/
structure FKeyMapEntry where
  string : List Nat
  length : Nat
  num : Nat
deriving DecidableEq

/-- The session-wide decoder configuration: the enable flags and the two
lookup tables (external collaborators of `FKeyboard`; `key_cap_ptr = none`
models a zero use count of the termcap table pointer). -/
structure Config where
  mouse_support : Bool
  utf8_input : Bool
  key_cap_ptr : Option (List FKeyMapEntry)
  key_map : List FKeyMapEntry
deriving DecidableEq

/-- The mutable state of one `FKeyboard` instance: the FIFO buffer with its
offset and flags, the transient `fkey` / `key` members, the decoded-event
queue (front of the list = front of the queue) and the pending-input flag. -/
structure KState where
  fifo_buf : List Nat
  fifo_offset : Nat
  fifo_in_use : Bool
  unprocessed_buffer_data : Bool
  fkey : Nat
  key : Nat
  fkey_queue : List Nat
  has_pending_input : Bool
deriving DecidableEq

/-- The `std::find_if` scan of `getTermcapKey` (lines 299-313): first entry
whose nonzero stored length equals the buffer length and whose string
`strncmp`-matches the buffer front. -/
def findCapEntry (table : List FKeyMapEntry) (buf : List Nat) (buf_len : Nat) :
    Option FKeyMapEntry :=
  table.find? fun e =>
    if e.length = 0 ∨ e.length ≠ buf_len then false
    else strncmpEq e.string buf 0 e.length

/-- The `std::find_if` scan of `getKnownKey` (lines 342-356): first entry
whose stored length equals the buffer length and whose string
`strncmp`-matches the buffer front. -/
def findMapEntry (table : List FKeyMapEntry) (buf : List Nat) (buf_len : Nat) :
    Option FKeyMapEntry :=
  table.find? fun e =>
    if e.length ≠ buf_len then false
    else strncmpEq e.string buf 0 e.length

/-- The method `FKeyboard::getMouseProtocolKey` (lines 261-286): a `const` method, so it
returns a key value and leaves the state untouched.  Byte values: 91 is the
left bracket, 77 is the capital M, 109 is the small m, 60 is the less-than
sign, 48-57 are the digits. -/
def getMouseProtocolKey (cfg : Config) (st : KState) : Nat :=
  if ¬ cfg.mouse_support then FKey_NOT_SET
  else
    let buf_len := st.fifo_offset
    if buf_len ≥ 6 ∧ byteAt st.fifo_buf 1 = 91 ∧ byteAt st.fifo_buf 2 = 77 then
      FKey_X11mouse
    else if byteAt st.fifo_buf 1 = 91 ∧ byteAt st.fifo_buf 2 = 60 ∧ buf_len ≥ 9 ∧
        (byteAt st.fifo_buf (buf_len - 1) = 77 ∨ byteAt st.fifo_buf (buf_len - 1) = 109) then
      FKey_Extended_mouse
    else if byteAt st.fifo_buf 1 = 91 ∧
        49 ≤ byteAt st.fifo_buf 2 ∧ byteAt st.fifo_buf 2 ≤ 57 ∧
        48 ≤ byteAt st.fifo_buf 3 ∧ byteAt st.fifo_buf 3 ≤ 57 ∧ buf_len ≥ 9 ∧
        byteAt st.fifo_buf (buf_len - 1) = 77 then
      FKey_Urxvt_mouse
    else FKey_NOT_SET

/-- The shared tail of the two table lookups and of `getSingleKey`: consume
`len` bytes from the buffer front and recompute `unprocessed_buffer_data`
as `fifo_buf[0] != 0` (lines 320-326, 372-378, 419-425). -/
def consumeState (st : KState) (len : Nat) : KState :=
  let buf2 := removeFront st.fifo_buf len
  { st with fifo_buf := buf2
            unprocessed_buffer_data := byteAt buf2 0 != 0 }

/-- The method `FKeyboard::getTermcapKey` (lines 289-331): `NOT_SET` without a termcap
table or without a match; on a match, consume the matched length and return
the entry key.  `fifo_offset` is not updated here (the caller does that). -/
def getTermcapKey (cfg : Config) (st : KState) : Nat × KState :=
  match cfg.key_cap_ptr with
  | none => (FKey_NOT_SET, st)
  | some table =>
    match findCapEntry table st.fifo_buf st.fifo_offset with
    | none => (FKey_NOT_SET, st)
    | some e => (e.num, consumeState st e.length)

/-- The method `FKeyboard::getKnownKey` (lines 334-383): like the termcap lookup but
over the generic table, with the two-byte ambiguous-prefix override: a match
of length exactly 2 whose second buffer byte is 79, 91 or 93 (capital O,
left bracket, right bracket) is reported `Incomplete`, without consuming,
while the key timeout has not elapsed. -/
def getKnownKey (cfg : Config) (tout : Bool) (st : KState) : Nat × KState :=
  match findMapEntry cfg.key_map st.fifo_buf st.fifo_offset with
  | none => (FKey_NOT_SET, st)
  | some e =>
    if e.length = 2 ∧
        (byteAt st.fifo_buf 1 = 79 ∨ byteAt st.fifo_buf 1 = 91 ∨ byteAt st.fifo_buf 1 = 93) ∧
        ¬ tout then
      (FKey_Incomplete, st)
    else (e.num, consumeState st e.length)

/-- The loop body of `FKeyboard::UTF8decode` (lines 449-483), folding one
byte into the 32-bit accumulator.  The shift `(ucs << 6) | (ch & 0x3f)` is a
`uInt32` operation, hence the explicit `% 2 ^ 32`. -/
def UTF8decodeStep (ucs ch : Nat) : Nat :=
  if ch &&& 192 = 128 then ((ucs <<< 6) % 2 ^ 32) ||| (ch &&& 63)
  else if ch < 128 then ch
  else if ch &&& 224 = 192 then ch &&& 31
  else if ch &&& 240 = 224 then ch &&& 15
  else if ch &&& 248 = 240 then ch &&& 7
  else FKey_NOT_SET

/-- The method `FKeyboard::UTF8decode` (lines 440-486): processes the first
`min(length, 4)` bytes of the argument string, starting from `FKey::None`. -/
def UTF8decode (utf8 : List Nat) : Nat :=
  (utf8.take (min utf8.length 4)).foldl UTF8decodeStep FKey_None

/-- The argument that `getSingleKey` passes to `UTF8decode`: the first `len`
buffer bytes are copied into a zero-initialised 5-byte array whose `data()`
pointer is converted to `std::string`, which truncates at the first NUL. -/
def cString (l : List Nat) : List Nat :=
  l.takeWhile fun c => c != 0

/-- The two numeric remaps at the end of `FKeyboard::getSingleKey`
(lines 427-430): a decoded 0 becomes `Ctrl_space`, a decoded 127 becomes
`Backspace`. -/
def ctrlSpaceBackspaceSubstitution (keycode : Nat) : Nat :=
  let k := if keycode = 0 then FKey_Ctrl_space else keycode
  if k = 127 then FKey_Backspace else k

/-- The method `FKeyboard::getSingleKey` (lines 386-431): UTF-8 multi-byte decode when
enabled and the first byte has the `11xxxxxx` pattern (with an `Incomplete`
report if the buffer holds fewer than the expected bytes and the timeout has
not elapsed), otherwise the raw single byte; the decoded value is remapped
by `ctrlSpaceBackspaceSubstitution` and the consumed length is removed from
the buffer front. -/
def getSingleKey (cfg : Config) (tout : Bool) (st : KState) : Nat × KState :=
  let firstchar := byteAt st.fifo_buf 0
  if cfg.utf8_input ∧ firstchar &&& 192 = 192 then
    let buf_len := stringLength st.fifo_buf
    let len : Nat :=
      if firstchar &&& 224 = 192 then 2
      else if firstchar &&& 240 = 224 then 3
      else if firstchar &&& 248 = 240 then 4
      else 1
    if buf_len < len ∧ ¬ tout then (FKey_Incomplete, st)
    else
      let keycode := UTF8decode (cString (st.fifo_buf.take len))
      (ctrlSpaceBackspaceSubstitution keycode, consumeState st len)
  else
    (ctrlSpaceBackspaceSubstitution (byteAt st.fifo_buf 0), consumeState st 1)

/-- The same computation as `getSingleKey` but without the final
`ctrlSpaceBackspaceSubstitution` remap, written down to state the amended
form of the remap claim (the raw decoded value of the spec discussion). -/
def getSingleKeyRaw (cfg : Config) (tout : Bool) (st : KState) : Nat × KState :=
  let firstchar := byteAt st.fifo_buf 0
  if cfg.utf8_input ∧ firstchar &&& 192 = 192 then
    let buf_len := stringLength st.fifo_buf
    let len : Nat :=
      if firstchar &&& 224 = 192 then 2
      else if firstchar &&& 240 = 224 then 3
      else if firstchar &&& 248 = 240 then 4
      else 1
    if buf_len < len ∧ ¬ tout then (FKey_Incomplete, st)
    else
      let keycode := UTF8decode (cString (st.fifo_buf.take len))
      (keycode, consumeState st len)
  else
    (byteAt st.fifo_buf 0, consumeState st 1)

/-- The method `FKeyboard::parseKeyString` (lines 545-571): when the buffer starts with
the escape byte 27, try the mouse protocols, the termcap table and the
generic table in that order, report `Incomplete` before the timeout, and
fall through to `getSingleKey` otherwise. -/
def parseKeyString (cfg : Config) (tout : Bool) (st : KState) : Nat × KState :=
  if byteAt st.fifo_buf 0 = 27 then
    let keycode := getMouseProtocolKey cfg st
    if keycode ≠ FKey_NOT_SET then (keycode, st)
    else
      let r2 := getTermcapKey cfg st
      if r2.1 ≠ FKey_NOT_SET then r2
      else
        let r3 := getKnownKey cfg tout r2.2
        if r3.1 ≠ FKey_NOT_SET then r3
        else if ¬ tout then (FKey_Incomplete, r3.2)
        else getSingleKey cfg tout r3.2
  else getSingleKey cfg tout st

/-- The method `FKeyboard::keyCorrection` (lines 574-593): the platform modifier
correction is an external collaborator (the Linux console driver); on every
other platform the key passes through unchanged, which is the behaviour
modelled here. -/
def keyCorrection (keycode : Nat) : Nat := keycode

/-- The inner resolution loop of `FKeyboard::parseKeyBuffer` (lines 515-535):
while the buffer is non-empty and the last result was not `Incomplete`,
classify the buffer front; a mouse key stores `key`, notifies the external
mouse collaborator and breaks; any other resolved key is pushed onto the
event queue; after either, `fifo_offset` is resynchronised to the NUL-scan
length of the buffer.  Each continuing iteration shifts the 512-byte buffer
left by at least one position, so `FIFO_BUF_SIZE + 1` fuel runs the C++ loop
to completion. -/
def parseLoop (cfg : Config) (tout : Bool) : Nat → KState → KState
  | 0, st => st
  | fuel + 1, st =>
    if st.fifo_offset > 0 ∧ st.fkey ≠ FKey_Incomplete then
      let r := parseKeyString cfg tout st
      let k := keyCorrection r.1
      let st2 := { r.2 with fkey := k }
      if k = FKey_X11mouse ∨ k = FKey_Extended_mouse ∨ k = FKey_Urxvt_mouse then
        { st2 with key := k, fifo_offset := stringLength st2.fifo_buf }
      else if k ≠ FKey_Incomplete then
        parseLoop cfg tout fuel
          { st2 with fkey_queue := st2.fkey_queue ++ [k]
                     fifo_offset := stringLength st2.fifo_buf }
      else parseLoop cfg tout fuel st2
    else st

/-- One iteration of the outer read loop of `FKeyboard::parseKeyBuffer`
(lines 503-537), for one successfully read byte `c` with timeout oracle
`tout`: clear `has_pending_input` (line 505), append the byte to the buffer
if it fits (lines 507-512), run the inner resolution loop (lines 515-535)
and reset `fkey` to `FKey::None` (line 537). -/
def parseKeyBufferStep (cfg : Config) (c : Nat) (tout : Bool) (st : KState) :
    KState :=
  let st1 := { st with has_pending_input := false }
  let st2 :=
    if 1 + st1.fifo_offset ≤ FIFO_BUF_SIZE then
      { st1 with fifo_buf := st1.fifo_buf.set st1.fifo_offset c
                 fifo_offset := st1.fifo_offset + 1
                 fifo_in_use := true }
    else st1
  let st3 := parseLoop cfg tout (FIFO_BUF_SIZE + 1) st2
  { st3 with fkey := FKey_None }

/-- The outer read loop of `FKeyboard::parseKeyBuffer` (lines 498-542).  The
input models the sequence of successful one-byte reads of this call, each
paired with the oracle answer that `isKeypressTimeout()` gives while that
byte is being resolved (the re-read of the wall clock is external to the
decoder).  After each byte the loop stops once the queue has reached
`MAX_QUEUE_SIZE` (lines 539-540). -/
def parseKeyBufferLoop (cfg : Config) : List (Nat × Bool) → KState → KState
  | [], st => st
  | (c, tout) :: rest, st =>
    let st4 := parseKeyBufferStep cfg c tout st
    if st4.fkey_queue.length ≥ MAX_QUEUE_SIZE then st4
    else parseKeyBufferLoop cfg rest st4

/-- The method `FKeyboard::parseKeyBuffer` (lines 498-542); the update of
`time_keypressed` at entry is part of the abstracted clock. -/
def parseKeyBuffer (cfg : Config) (input : List (Nat × Bool)) (st : KState) : KState :=
  parseKeyBufferLoop cfg input st

/-- The method `FKeyboard::fetchKeyCode` (lines 94-98): parse the key buffer only while
the event queue is below `MAX_QUEUE_SIZE`. -/
def fetchKeyCode (cfg : Config) (input : List (Nat × Bool)) (st : KState) : KState :=
  if st.fkey_queue.length < MAX_QUEUE_SIZE then parseKeyBuffer cfg input st
  else st

/-- The method `FKeyboard::substringKeyHandling` (lines 596-622): when the buffer holds
exactly the escape byte followed by 79, 91 or 93 (capital O, left bracket,
right bracket) and the key timeout has elapsed, clear the buffer bookkeeping
(only `fifo_buf[0]` is zeroed), pick the matching Meta key from the still
intact `fifo_buf[1]`, and push it onto the event queue. -/
def substringKeyHandling (tout : Bool) (st : KState) : KState :=
  if st.fifo_in_use ∧ st.fifo_offset = 2 ∧ byteAt st.fifo_buf 0 = 27 ∧
      (byteAt st.fifo_buf 1 = 79 ∨ byteAt st.fifo_buf 1 = 91 ∨ byteAt st.fifo_buf 1 = 93) ∧
      byteAt st.fifo_buf 2 = 0 ∧ tout then
    let buf2 := st.fifo_buf.set 0 0
    let fk :=
      if byteAt buf2 1 = 79 then FKey_Meta_O
      else if byteAt buf2 1 = 91 then FKey_Meta_left_square_bracket
      else FKey_Meta_right_square_bracket
    { st with fifo_offset := 0
              fifo_buf := buf2
              fifo_in_use := false
              unprocessed_buffer_data := false
              fkey := fk
              fkey_queue := st.fkey_queue ++ [fk] }
  else st

/-- The results of the up to two `select` readiness polls that one
`FKeyboard::isKeyPressed` call can make (the terminal is an external
collaborator, so the poll outcomes are oracle inputs). -/
structure PollEnv where
  select1 : Bool
  select2 : Bool
deriving DecidableEq

/-- The method `FKeyboard::isKeyPressed` (lines 154-188), returning the boolean result
together with the number of `select` polls performed.  With the sticky
`has_pending_input` flag already set the function returns at once; otherwise
a zero-timeout poll runs first (only when `blocking_time > 0` and
non-blocking input is supported), followed by the timed poll. -/
def isKeyPressed (has_pending_input : Bool) (blocking_time : Nat)
    (non_blocking_input_support : Bool) (env : PollEnv) : Bool × Nat :=
  if has_pending_input then (false, 0)
  else if blocking_time > 0 ∧ non_blocking_input_support then
    if env.select1 then (true, 1)
    else if env.select2 then (true, 2)
    else (false, 2)
  else if env.select2 then (true, 1)
  else (false, 1)

/-- Modelled from the spec: the canonical UTF-8 encoding of a code point,
with the byte count (2, 3 or 4) determined by the code point range.  The
encoder is not part of the decoder sources; it is the reference encoding the
round-trip property quantifies over. -/
def utf8encode (cp : Nat) : List Nat :=
  if cp < 128 then [cp]
  else if cp < 2048 then
    [192 + cp / 64, 128 + cp % 64]
  else if cp < 65536 then
    [224 + cp / 4096, 128 + cp / 64 % 64, 128 + cp % 64]
  else
    [240 + cp / 262144, 128 + cp / 4096 % 64, 128 + cp / 64 % 64, 128 + cp % 64]

/-- A 512-byte FIFO buffer holding `content` followed by the zero fill. -/
def mkBuf (content : List Nat) : List Nat :=
  content ++ List.replicate (FIFO_BUF_SIZE - content.length) 0

/-- A decoder state with the given buffer content, in-use flag and event
queue; the remaining fields hold their cleared values. -/
def mkState (content : List Nat) (inuse : Bool) (queue : List Nat) : KState :=
  ⟨mkBuf content, content.length, inuse, false, FKey_None, FKey_None, queue, false⟩

/-- The buffer-append part of one read iteration (lines 505-512), factored
out of `parseKeyBufferStep` for the symbolic-execution lemmas: clear the
pending flag and store the byte at the current offset. -/
def appendByte (st : KState) (c : Nat) : KState :=
  { st with has_pending_input := false
            fifo_buf := st.fifo_buf.set st.fifo_offset c
            fifo_offset := st.fifo_offset + 1
            fifo_in_use := true }

/-- Well-formedness of a decoder state as maintained by the C++ code: the
FIFO buffer is the full 512-cell `char` array, each cell holding a byte
value below 256. -/
def byteBounded (st : KState) : Prop :=
  st.fifo_buf.length = FIFO_BUF_SIZE ∧
  ∀ i, i < FIFO_BUF_SIZE → byteAt st.fifo_buf i < 256

instance (st : KState) : Decidable (byteBounded st) :=
  inferInstanceAs (Decidable (st.fifo_buf.length = FIFO_BUF_SIZE ∧
    ∀ i, i < FIFO_BUF_SIZE → byteAt st.fifo_buf i < 256))

example : removeFront [7, 8, 9] 1 = [8, 9, 0] := by decide
example : strncmpEq [27, 91] [27, 91, 65] 0 2 = true := by decide
example : strncmpEq [27, 91] [27, 93, 65] 0 2 = false := by decide
example : stringLength [5, 6, 0, 7] = 2 := by decide

theorem lor_shiftLeft_add (a r k : Nat) (h : r < 2 ^ k) :
    (a <<< k) ||| r = a * 2 ^ k + r := by
  apply Nat.eq_of_testBit_eq
  intro i
  have hmul : a * 2 ^ k + r = 2 ^ k * a + r := by ring_nf
  rw [hmul, Nat.testBit_mul_pow_two_add a h i, Nat.testBit_lor, Nat.testBit_shiftLeft]
  by_cases hi : i < k
  · have hlt : ¬ (i ≥ k) := by omega
    simp [hi, hlt]
  · have hge : i ≥ k := by omega
    have hr : r.testBit i = false :=
      Nat.testBit_lt_two_pow (lt_of_lt_of_le h (Nat.pow_le_pow_right (by omega) hge))
    simp [hi, hge, hr]

theorem lead2_byte_facts :
    ∀ q, q < 32 → ¬ ((192 + q) &&& 192 = 128) ∧ ¬ (192 + q < 128) ∧
      (192 + q) &&& 224 = 192 ∧ (192 + q) &&& 31 = q := by decide

theorem lead3_byte_facts :
    ∀ t, t < 16 → ¬ ((224 + t) &&& 192 = 128) ∧ ¬ (224 + t < 128) ∧
      ¬ ((224 + t) &&& 224 = 192) ∧ (224 + t) &&& 240 = 224 ∧
      (224 + t) &&& 15 = t := by decide

theorem lead4_byte_facts :
    ∀ s, s < 8 → ¬ ((240 + s) &&& 192 = 128) ∧ ¬ (240 + s < 128) ∧
      ¬ ((240 + s) &&& 224 = 192) ∧ ¬ ((240 + s) &&& 240 = 224) ∧
      (240 + s) &&& 248 = 240 ∧ (240 + s) &&& 7 = s := by decide

theorem cont_byte_facts :
    ∀ r, r < 64 → (128 + r) &&& 192 = 128 ∧ (128 + r) &&& 63 = r := by decide

theorem UTF8decodeStep_lead2 (ucs q : Nat) (hq : q < 32) :
    UTF8decodeStep ucs (192 + q) = q := by
  obtain ⟨f1, f2, f3, f4⟩ := lead2_byte_facts q hq
  rw [UTF8decodeStep, if_neg f1, if_neg f2, if_pos f3, f4]

theorem UTF8decodeStep_lead3 (ucs t : Nat) (ht : t < 16) :
    UTF8decodeStep ucs (224 + t) = t := by
  obtain ⟨f1, f2, f3, f4, f5⟩ := lead3_byte_facts t ht
  rw [UTF8decodeStep, if_neg f1, if_neg f2, if_neg f3, if_pos f4, f5]

theorem UTF8decodeStep_lead4 (ucs s : Nat) (hs : s < 8) :
    UTF8decodeStep ucs (240 + s) = s := by
  obtain ⟨f1, f2, f3, f4, f5, f6⟩ := lead4_byte_facts s hs
  rw [UTF8decodeStep, if_neg f1, if_neg f2, if_neg f3, if_neg f4, if_pos f5, f6]

theorem UTF8decodeStep_cont (ucs r : Nat) (hr : r < 64) (hucs : ucs < 2 ^ 26) :
    UTF8decodeStep ucs (128 + r) = ucs * 64 + r := by
  obtain ⟨f1, f2⟩ := cont_byte_facts r hr
  rw [UTF8decodeStep, if_pos f1, f2]
  have hmod : (ucs <<< 6) % 2 ^ 32 = ucs <<< 6 := by
    apply Nat.mod_eq_of_lt
    rw [Nat.shiftLeft_eq]
    calc ucs * 2 ^ 6 < 2 ^ 26 * 2 ^ 6 := by
          exact Nat.mul_lt_mul_of_lt_of_le hucs (Nat.le_refl _) (by norm_num)
      _ ≤ 2 ^ 32 := by norm_num
  rw [hmod, lor_shiftLeft_add ucs r 6 (by omega)]
  norm_num

theorem byteAt_set_self (l : List Nat) (i v : Nat) (h : i < l.length) :
    byteAt (l.set i v) i = v := by
  simp [byteAt, List.getD, List.getElem?_set_self, h]

theorem byteAt_set_ne (l : List Nat) (i j v : Nat) (h : i ≠ j) :
    byteAt (l.set i v) j = byteAt l j := by
  simp [byteAt, List.getD, List.getElem?_set_ne h]

theorem byteAt_of_length_le (l : List Nat) (i : Nat) (h : l.length ≤ i) :
    byteAt l i = 0 := by
  simp [byteAt, List.getD, List.getElem?_eq_none h]

theorem shiftLoopAux_length (len : Nat) :
    ∀ (fuel : Nat) (b : List Nat) (n : Nat),
      (shiftLoopAux b len n fuel).length = b.length := by
  intro fuel
  induction fuel with
  | zero => intro b n; rfl
  | succ fuel ih =>
    intro b n
    by_cases h : n < FIFO_BUF_SIZE
    · simp [shiftLoopAux, h, ih]
    · simp [shiftLoopAux, h]

theorem zeroLoopAux_length :
    ∀ (fuel : Nat) (b : List Nat) (n : Nat),
      (zeroLoopAux b n fuel).length = b.length := by
  intro fuel
  induction fuel with
  | zero => intro b n; rfl
  | succ fuel ih =>
    intro b n
    by_cases h : n < FIFO_BUF_SIZE
    · simp [zeroLoopAux, h, ih]
    · simp [zeroLoopAux, h]

theorem shiftLoopAux_byteAt (len : Nat) :
    ∀ (fuel : Nat) (b : List Nat) (n : Nat), b.length = FIFO_BUF_SIZE →
      len ≤ n → fuel = FIFO_BUF_SIZE - n →
      ∀ i, byteAt (shiftLoopAux b len n fuel) i =
        if n - len ≤ i ∧ i < FIFO_BUF_SIZE - len then byteAt b (i + len)
        else byteAt b i := by
  intro fuel
  induction fuel with
  | zero =>
    intro b n hb hlen hfuel i
    have hn : FIFO_BUF_SIZE ≤ n := by omega
    have hcond : ¬ (n - len ≤ i ∧ i < FIFO_BUF_SIZE - len) := by omega
    show byteAt b i = _
    rw [if_neg hcond]
  | succ fuel ih =>
    intro b n hb hlen hfuel i
    have hn : n < FIFO_BUF_SIZE := by omega
    have hset : (b.set (n - len) (byteAt b n)).length = FIFO_BUF_SIZE := by
      simp [hb]
    have hrec := ih (b.set (n - len) (byteAt b n)) (n + 1) hset (by omega) (by omega) i
    rw [shiftLoopAux, if_pos hn, hrec]
    rcases Nat.lt_trichotomy i (n - len) with hi | hi | hi
    · have c1 : ¬ (n + 1 - len ≤ i ∧ i < FIFO_BUF_SIZE - len) := by omega
      have c2 : ¬ (n - len ≤ i ∧ i < FIFO_BUF_SIZE - len) := by omega
      rw [if_neg c1, if_neg c2, byteAt_set_ne _ _ _ _ (by omega)]
    · have c1 : ¬ (n + 1 - len ≤ i ∧ i < FIFO_BUF_SIZE - len) := by omega
      have c2 : (n - len ≤ i ∧ i < FIFO_BUF_SIZE - len) := by
        constructor
        · omega
        · omega
      rw [if_neg c1, if_pos c2, ← hi, byteAt_set_self _ _ _ (by omega)]
      congr 1
      omega
    · by_cases c : i < FIFO_BUF_SIZE - len
      · have c1 : (n + 1 - len ≤ i ∧ i < FIFO_BUF_SIZE - len) := by omega
        have c2 : (n - len ≤ i ∧ i < FIFO_BUF_SIZE - len) := by omega
        rw [if_pos c1, if_pos c2, byteAt_set_ne _ _ _ _ (by omega)]
      · have c1 : ¬ (n + 1 - len ≤ i ∧ i < FIFO_BUF_SIZE - len) := by
          omega
        have c2 : ¬ (n - len ≤ i ∧ i < FIFO_BUF_SIZE - len) := by omega
        rw [if_neg c1, if_neg c2, byteAt_set_ne _ _ _ _ (by omega)]

theorem zeroLoopAux_byteAt :
    ∀ (fuel : Nat) (b : List Nat) (n : Nat), b.length = FIFO_BUF_SIZE →
      fuel = FIFO_BUF_SIZE - n →
      ∀ i, byteAt (zeroLoopAux b n fuel) i =
        if n ≤ i ∧ i < FIFO_BUF_SIZE then 0 else byteAt b i := by
  intro fuel
  induction fuel with
  | zero =>
    intro b n hb hfuel i
    have : ¬ (n ≤ i ∧ i < FIFO_BUF_SIZE) := by omega
    simp [zeroLoopAux, this]
  | succ fuel ih =>
    intro b n hb hfuel i
    have hn : n < FIFO_BUF_SIZE := by omega
    have hset : (b.set n 0).length = FIFO_BUF_SIZE := by simp [hb]
    have hrec := ih (b.set n 0) (n + 1) hset (by omega) i
    rw [zeroLoopAux, if_pos hn, hrec]
    rcases Nat.lt_trichotomy i n with hi | hi | hi
    · have c1 : ¬ (n + 1 ≤ i ∧ i < FIFO_BUF_SIZE) := by omega
      have c2 : ¬ (n ≤ i ∧ i < FIFO_BUF_SIZE) := by omega
      rw [if_neg c1, if_neg c2, byteAt_set_ne _ _ _ _ (by omega)]
    · have c1 : ¬ (n + 1 ≤ i ∧ i < FIFO_BUF_SIZE) := by omega
      have c2 : (n ≤ i ∧ i < FIFO_BUF_SIZE) := by omega
      rw [if_neg c1, if_pos c2, ← hi, byteAt_set_self _ _ _ (by omega)]
    · by_cases c : i < FIFO_BUF_SIZE
      · have c1 : (n + 1 ≤ i ∧ i < FIFO_BUF_SIZE) := by omega
        have c2 : (n ≤ i ∧ i < FIFO_BUF_SIZE) := by omega
        rw [if_pos c1, if_pos c2]
      · have c1 : ¬ (n + 1 ≤ i ∧ i < FIFO_BUF_SIZE) := by omega
        have c2 : ¬ (n ≤ i ∧ i < FIFO_BUF_SIZE) := by omega
        rw [if_neg c1, if_neg c2, byteAt_set_ne _ _ _ _ (by omega)]

theorem removeFront_length (b : List Nat) (len : Nat) :
    (removeFront b len).length = b.length := by
  unfold removeFront shiftLoop zeroLoop
  rw [zeroLoopAux_length, shiftLoopAux_length]

theorem removeFront_byteAt (b : List Nat) (len : Nat)
    (hb : b.length = FIFO_BUF_SIZE) (i : Nat) :
    byteAt (removeFront b len) i =
      if i < FIFO_BUF_SIZE - len then byteAt b (i + len) else 0 := by
  unfold removeFront shiftLoop zeroLoop
  have hlen : (shiftLoopAux b len len (FIFO_BUF_SIZE - len)).length = FIFO_BUF_SIZE := by
    rw [shiftLoopAux_length, hb]
  rw [zeroLoopAux_byteAt _ _ _ hlen rfl i]
  by_cases c : i < FIFO_BUF_SIZE - len
  · have c2 : ¬ (FIFO_BUF_SIZE - len ≤ i ∧ i < FIFO_BUF_SIZE) := by omega
    rw [if_neg c2, if_pos c,
      shiftLoopAux_byteAt len _ b len hb (Nat.le_refl len) rfl i,
      if_pos (by omega)]
  · rw [if_neg c]
    by_cases c2 : i < FIFO_BUF_SIZE
    · rw [if_pos (by omega)]
    · rw [if_neg (by omega),
        shiftLoopAux_byteAt len _ b len hb (Nat.le_refl len) rfl i,
        if_neg (by omega), byteAt_of_length_le _ _ (by omega)]

theorem removeFront_eq (b : List Nat) (len : Nat)
    (hb : b.length = FIFO_BUF_SIZE) (hlen : len ≤ FIFO_BUF_SIZE) :
    removeFront b len = b.drop len ++ List.replicate len 0 := by
  apply List.ext_getElem
  · rw [removeFront_length, hb, List.length_append, List.length_drop,
      List.length_replicate, hb]
    omega
  · intro i h1 h2
    have hbyte := removeFront_byteAt b len hb i
    have hlhs : (removeFront b len)[i] = byteAt (removeFront b len) i := by
      rw [byteAt, List.getD_eq_getElem _ _ h1]
    rw [hlhs, hbyte]
    by_cases c : i < FIFO_BUF_SIZE - len
    · rw [if_pos c]
      have hd : i < (b.drop len).length := by
        rw [List.length_drop, hb]; omega
      rw [List.getElem_append_left hd, List.getElem_drop, byteAt,
        List.getD_eq_getElem _ _ (show i + len < b.length by omega)]
      congr 1
      omega
    · rw [if_neg c]
      have hd : (b.drop len).length ≤ i := by
        rw [List.length_drop, hb]; omega
      rw [List.getElem_append_right hd, List.getElem_replicate]

theorem stringLength_replicate_zero (k : Nat) :
    stringLength (List.replicate k 0) = 0 := by
  cases k with
  | zero => rfl
  | succ k =>
    rw [List.replicate_succ]
    simp [stringLength]

theorem stringLength_append_replicate (l : List Nat) (k : Nat) :
    stringLength (l ++ List.replicate k 0) = stringLength l := by
  induction l with
  | nil =>
    rw [List.nil_append, stringLength_replicate_zero]
    rfl
  | cons c rest ih =>
    rw [List.cons_append]
    show (if c = 0 then 0 else stringLength (rest ++ List.replicate k 0) + 1) =
      (if c = 0 then 0 else stringLength rest + 1)
    rw [ih]

theorem byteAt_append_replicate (content : List Nat) (k i : Nat) :
    byteAt (content ++ List.replicate k 0) i = byteAt content i := by
  by_cases h : i < content.length
  · have h2 : i < (content ++ List.replicate k 0).length := by
      rw [List.length_append]
      omega
    rw [byteAt, byteAt, List.getD_eq_getElem _ _ h2, List.getD_eq_getElem _ _ h,
      List.getElem_append_left h]
  · rw [byteAt_of_length_le content i (by omega)]
    by_cases h3 : i < (content ++ List.replicate k 0).length
    · rw [byteAt, List.getD_eq_getElem _ _ h3,
        List.getElem_append_right (show content.length ≤ i by omega)]
      simp
    · rw [byteAt_of_length_le _ i (by omega)]

theorem byteAt_mkBuf (content : List Nat) (i : Nat) :
    byteAt (mkBuf content) i = byteAt content i := by
  rw [mkBuf]
  exact byteAt_append_replicate content _ i

theorem byteAt_drop_zero (l : List Nat) (n : Nat) :
    byteAt (l.drop n) 0 = byteAt l n := by
  simp [byteAt, List.getD_eq_getElem?_getD, List.getElem?_drop]

theorem mkBuf_length (content : List Nat) (h : content.length ≤ FIFO_BUF_SIZE) :
    (mkBuf content).length = FIFO_BUF_SIZE := by
  rw [mkBuf, List.length_append, List.length_replicate]
  omega

theorem removeFront_mkBuf (content : List Nat) (len : Nat)
    (hc : content.length ≤ FIFO_BUF_SIZE) (hl : len ≤ FIFO_BUF_SIZE) :
    removeFront (mkBuf content) len = mkBuf (content.drop len) := by
  rw [removeFront_eq (mkBuf content) len (mkBuf_length content hc) hl]
  rw [mkBuf, mkBuf, List.drop_append_eq_append_drop, List.drop_replicate,
    List.append_assoc]
  refine congrArg (fun t => content.drop len ++ t) ?_
  rw [← List.replicate_add]
  refine congrArg (fun n => List.replicate n 0) ?_
  simp only [List.length_drop]
  omega

theorem consumeState_mkBuf (st : KState) (content : List Nat) (len : Nat)
    (hbuf : st.fifo_buf = mkBuf content)
    (hc : content.length ≤ FIFO_BUF_SIZE) (hl : len ≤ FIFO_BUF_SIZE) :
    consumeState st len =
      { st with fifo_buf := mkBuf (content.drop len)
                unprocessed_buffer_data := byteAt content len != 0 } := by
  unfold consumeState
  rw [hbuf, removeFront_mkBuf content len hc hl]
  dsimp only
  rw [byteAt_mkBuf, byteAt_drop_zero]

theorem getTermcapKey_none (cfg : Config) (st : KState)
    (h : cfg.key_cap_ptr = none) : getTermcapKey cfg st = (FKey_NOT_SET, st) := by
  rw [getTermcapKey, h]

theorem getKnownKey_none (cfg : Config) (tout : Bool) (st : KState)
    (h : findMapEntry cfg.key_map st.fifo_buf st.fifo_offset = none) :
    getKnownKey cfg tout st = (FKey_NOT_SET, st) := by
  rw [getKnownKey, h]

theorem getKnownKey_found (cfg : Config) (tout : Bool) (st : KState)
    (e : FKeyMapEntry)
    (hfind : findMapEntry cfg.key_map st.fifo_buf st.fifo_offset = some e)
    (hno : ¬ (e.length = 2 ∧
        (byteAt st.fifo_buf 1 = 79 ∨ byteAt st.fifo_buf 1 = 91 ∨
          byteAt st.fifo_buf 1 = 93) ∧ ¬ tout)) :
    getKnownKey cfg tout st = (e.num, consumeState st e.length) := by
  rw [getKnownKey, hfind]
  show (if e.length = 2 ∧
      (byteAt st.fifo_buf 1 = 79 ∨ byteAt st.fifo_buf 1 = 91 ∨
        byteAt st.fifo_buf 1 = 93) ∧ ¬ tout then (FKey_Incomplete, st)
    else (e.num, consumeState st e.length)) = (e.num, consumeState st e.length)
  rw [if_neg hno]

theorem getSingleKey_plain (cfg : Config) (tout : Bool) (st : KState)
    (h : ¬ (cfg.utf8_input ∧ byteAt st.fifo_buf 0 &&& 192 = 192)) :
    getSingleKey cfg tout st =
      (ctrlSpaceBackspaceSubstitution (byteAt st.fifo_buf 0),
        consumeState st 1) := by
  simp only [getSingleKey]
  rw [if_neg h]

theorem getSingleKey_utf8_two (cfg : Config) (tout : Bool) (st : KState)
    (hu : cfg.utf8_input ∧ byteAt st.fifo_buf 0 &&& 192 = 192)
    (h2 : byteAt st.fifo_buf 0 &&& 224 = 192)
    (hok : ¬ (stringLength st.fifo_buf < 2 ∧ ¬ tout)) :
    getSingleKey cfg tout st =
      (ctrlSpaceBackspaceSubstitution
          (UTF8decode (cString (st.fifo_buf.take 2))),
        consumeState st 2) := by
  simp only [getSingleKey]
  rw [if_pos hu, if_pos h2, if_neg hok]

theorem getSingleKey_utf8_two_incomplete (cfg : Config) (tout : Bool)
    (st : KState)
    (hu : cfg.utf8_input ∧ byteAt st.fifo_buf 0 &&& 192 = 192)
    (h2 : byteAt st.fifo_buf 0 &&& 224 = 192)
    (hbad : stringLength st.fifo_buf < 2 ∧ ¬ tout) :
    getSingleKey cfg tout st = (FKey_Incomplete, st) := by
  simp only [getSingleKey]
  rw [if_pos hu, if_pos h2, if_pos hbad]

theorem parseKeyString_nonesc (cfg : Config) (tout : Bool) (st : KState)
    (hesc : byteAt st.fifo_buf 0 ≠ 27) :
    parseKeyString cfg tout st = getSingleKey cfg tout st := by
  rw [parseKeyString, if_neg hesc]

theorem parseKeyString_esc_incomplete (cfg : Config) (tout : Bool) (st : KState)
    (hesc : byteAt st.fifo_buf 0 = 27)
    (hmouse : getMouseProtocolKey cfg st = FKey_NOT_SET)
    (hcap : cfg.key_cap_ptr = none)
    (hknown : findMapEntry cfg.key_map st.fifo_buf st.fifo_offset = none)
    (htout : tout = false) :
    parseKeyString cfg tout st = (FKey_Incomplete, st) := by
  simp only [parseKeyString]
  rw [if_pos hesc, hmouse,
    if_neg (show ¬ (FKey_NOT_SET ≠ FKey_NOT_SET) by simp),
    getTermcapKey_none cfg st hcap]
  dsimp only
  rw [if_neg (show ¬ (FKey_NOT_SET ≠ FKey_NOT_SET) by simp),
    getKnownKey_none cfg tout st hknown]
  dsimp only
  rw [if_neg (show ¬ (FKey_NOT_SET ≠ FKey_NOT_SET) by simp), htout,
    if_pos (show ¬ (false = true) by simp)]

theorem parseKeyString_esc_timeout_single (cfg : Config) (tout : Bool)
    (st : KState)
    (hesc : byteAt st.fifo_buf 0 = 27)
    (hmouse : getMouseProtocolKey cfg st = FKey_NOT_SET)
    (hcap : cfg.key_cap_ptr = none)
    (hknown : findMapEntry cfg.key_map st.fifo_buf st.fifo_offset = none)
    (htout : tout = true) :
    parseKeyString cfg tout st = getSingleKey cfg tout st := by
  simp only [parseKeyString]
  rw [if_pos hesc, hmouse,
    if_neg (show ¬ (FKey_NOT_SET ≠ FKey_NOT_SET) by simp),
    getTermcapKey_none cfg st hcap]
  dsimp only
  rw [if_neg (show ¬ (FKey_NOT_SET ≠ FKey_NOT_SET) by simp),
    getKnownKey_none cfg tout st hknown]
  dsimp only
  rw [if_neg (show ¬ (FKey_NOT_SET ≠ FKey_NOT_SET) by simp), htout,
    if_neg (show ¬ ¬ (true = true) by simp)]

theorem parseKeyString_esc_known (cfg : Config) (tout : Bool) (st : KState)
    (e : FKeyMapEntry)
    (hesc : byteAt st.fifo_buf 0 = 27)
    (hmouse : getMouseProtocolKey cfg st = FKey_NOT_SET)
    (hcap : cfg.key_cap_ptr = none)
    (hfind : findMapEntry cfg.key_map st.fifo_buf st.fifo_offset = some e)
    (hno : ¬ (e.length = 2 ∧
        (byteAt st.fifo_buf 1 = 79 ∨ byteAt st.fifo_buf 1 = 91 ∨
          byteAt st.fifo_buf 1 = 93) ∧ ¬ tout))
    (hnum : e.num ≠ FKey_NOT_SET) :
    parseKeyString cfg tout st = (e.num, consumeState st e.length) := by
  simp only [parseKeyString]
  rw [if_pos hesc, hmouse,
    if_neg (show ¬ (FKey_NOT_SET ≠ FKey_NOT_SET) by simp),
    getTermcapKey_none cfg st hcap]
  dsimp only
  rw [if_neg (show ¬ (FKey_NOT_SET ≠ FKey_NOT_SET) by simp),
    getKnownKey_found cfg tout st e hfind hno]
  dsimp only
  rw [if_pos hnum]

theorem parseLoop_exit (cfg : Config) (tout : Bool) (fuel : Nat) (st : KState)
    (h : ¬ (st.fifo_offset > 0 ∧ st.fkey ≠ FKey_Incomplete)) :
    parseLoop cfg tout fuel st = st := by
  cases fuel with
  | zero => rfl
  | succ fuel =>
    simp only [parseLoop]
    rw [if_neg h]

theorem parseLoop_push_step (cfg : Config) (tout : Bool) (fuel : Nat)
    (st : KState) {k : Nat} {st2 : KState} (st3 : KState)
    (hcond : st.fifo_offset > 0 ∧ st.fkey ≠ FKey_Incomplete)
    (hparse : parseKeyString cfg tout st = (k, st2))
    (hnm : ¬ (k = FKey_X11mouse ∨ k = FKey_Extended_mouse ∨ k = FKey_Urxvt_mouse))
    (hni : k ≠ FKey_Incomplete)
    (hst3 : ({ st2 with fkey := k
                        fkey_queue := st2.fkey_queue ++ [k]
                        fifo_offset := stringLength st2.fifo_buf } : KState) = st3) :
    parseLoop cfg tout (fuel + 1) st = parseLoop cfg tout fuel st3 := by
  simp only [parseLoop, keyCorrection]
  rw [if_pos hcond, hparse]
  dsimp only
  rw [if_neg hnm, if_pos hni, hst3]

theorem parseLoop_incomplete_step (cfg : Config) (tout : Bool) (fuel : Nat)
    (st : KState) {st2 : KState}
    (hcond : st.fifo_offset > 0 ∧ st.fkey ≠ FKey_Incomplete)
    (hparse : parseKeyString cfg tout st = (FKey_Incomplete, st2)) :
    parseLoop cfg tout (fuel + 1) st = { st2 with fkey := FKey_Incomplete } := by
  simp only [parseLoop, keyCorrection]
  rw [if_pos hcond, hparse]
  dsimp only
  rw [if_neg (show ¬ (FKey_Incomplete = FKey_X11mouse ∨
      FKey_Incomplete = FKey_Extended_mouse ∨
      FKey_Incomplete = FKey_Urxvt_mouse) by decide),
    if_neg (show ¬ (FKey_Incomplete ≠ FKey_Incomplete) by simp)]
  exact parseLoop_exit cfg tout fuel _ (fun h => h.2 rfl)

theorem parseKeyBufferStep_eq (cfg : Config) (c : Nat) (tout : Bool)
    (st : KState) (h : 1 + st.fifo_offset ≤ FIFO_BUF_SIZE) :
    parseKeyBufferStep cfg c tout st =
      { parseLoop cfg tout (FIFO_BUF_SIZE + 1) (appendByte st c) with
          fkey := FKey_None } := by
  simp only [parseKeyBufferStep, appendByte]
  rw [if_pos h]

theorem parseKeyBufferLoop_cons (cfg : Config) (c : Nat) (tout : Bool)
    (rest : List (Nat × Bool)) (st : KState) :
    parseKeyBufferLoop cfg ((c, tout) :: rest) st =
      if (parseKeyBufferStep cfg c tout st).fkey_queue.length ≥ MAX_QUEUE_SIZE
      then parseKeyBufferStep cfg c tout st
      else parseKeyBufferLoop cfg rest (parseKeyBufferStep cfg c tout st) := rfl

/-- Claim C1, counterexample.  The claim states that a call to
`isKeyPressed` made while `has_pending_input` is already set returns `true`
immediately without polling; the code (line 156) returns `false` instead.
Even with data ready on the descriptor (both polls would answer yes), the
result is `(false, 0)` and not `(true, 0)`. -/
theorem isKeyPressed_pending_counterexample :
    isKeyPressed true 100000 true ⟨true, true⟩ ≠ (true, 0) := by decide

/-- Claim C1, amended: for every call made while the sticky
`has_pending_input` flag is already set, `isKeyPressed` returns `false`
immediately, performing no readiness poll. -/
theorem isKeyPressed_pending_short_circuit :
    ∀ (blocking_time : Nat) (nb_support : Bool) (env : PollEnv),
      isKeyPressed true blocking_time nb_support env = (false, 0) := by
  intro blocking_time nb_support env
  rfl

/-- Claim C4, counterexample.  The claim states that every input containing
an invalid UTF-8 byte pattern decodes to the `NOT_SET` sentinel; but the
decoder is a left fold, so the invalid byte 255 is overwritten by the
following valid byte 65 and the result is 65, not `NOT_SET`. -/
theorem utf8_decode_invalid_byte_overwritten_counterexample :
    UTF8decode [255, 65] = 65 ∧ (65 : Nat) ≠ FKey_NOT_SET := by decide

/-- Claim C4, amended: for every input byte string whose final processed
byte (among the first `min(length, 4)` bytes) matches none of the UTF-8
lead or continuation patterns, `UTF8decode` returns the `NOT_SET`
sentinel.  (An invalid byte earlier in the string can be overwritten by
later bytes, as the counterexample shows.) -/
theorem utf8_decode_invalid_final_byte_not_set (l : List Nat) (c : Nat)
    (hlen : l.length ≤ 3)
    (hc : ¬ (c &&& 192 = 128) ∧ ¬ (c < 128) ∧ ¬ (c &&& 224 = 192) ∧
      ¬ (c &&& 240 = 224) ∧ ¬ (c &&& 248 = 240)) :
    UTF8decode (l ++ [c]) = FKey_NOT_SET := by
  have hlen2 : (l ++ [c]).length ≤ 4 := by
    rw [List.length_append]; simp; omega
  have htake : (l ++ [c]).take (min (l ++ [c]).length 4) = l ++ [c] := by
    rw [min_eq_left hlen2, List.take_length]
  rw [UTF8decode, htake, List.foldl_append]
  show UTF8decodeStep _ c = FKey_NOT_SET
  rw [UTF8decodeStep, if_neg hc.1, if_neg hc.2.1, if_neg hc.2.2.1,
    if_neg hc.2.2.2.1, if_neg hc.2.2.2.2]

/-- Witness for the amended claim C4 at the concrete input `0xC3 0xFF`
(a two-byte lead followed by an invalid byte). -/
theorem utf8_decode_invalid_final_byte_not_set_witness :
    UTF8decode ([195] ++ [255]) = FKey_NOT_SET :=
  utf8_decode_invalid_final_byte_not_set [195] 255 (by decide) (by decide)

/-- Claim C7: decoding the exact canonical UTF-8 encoding of any code point
in `[0x80, 0x10FFFF]` returns the original code point. -/
theorem utf8_encode_decode_round_trip (cp : Nat)
    (h1 : 128 ≤ cp) (h2 : cp ≤ 1114111) :
    UTF8decode (utf8encode cp) = cp := by
  by_cases c2 : cp < 2048
  · have hq : cp / 64 < 32 := by omega
    have hr : cp % 64 < 64 := by omega
    rw [utf8encode, if_neg (by omega), if_pos c2]
    show UTF8decodeStep (UTF8decodeStep FKey_None (192 + cp / 64)) (128 + cp % 64) = cp
    rw [UTF8decodeStep_lead2 _ _ hq, UTF8decodeStep_cont _ _ hr (by omega)]
    omega
  · by_cases c3 : cp < 65536
    · have ht : cp / 4096 < 16 := by omega
      have hr1 : cp / 64 % 64 < 64 := by omega
      have hr2 : cp % 64 < 64 := by omega
      rw [utf8encode, if_neg (by omega), if_neg (by omega), if_pos c3]
      show UTF8decodeStep (UTF8decodeStep (UTF8decodeStep FKey_None
        (224 + cp / 4096)) (128 + cp / 64 % 64)) (128 + cp % 64) = cp
      rw [UTF8decodeStep_lead3 _ _ ht, UTF8decodeStep_cont _ _ hr1 (by omega),
        UTF8decodeStep_cont _ _ hr2 (by omega)]
      omega
    · have hs : cp / 262144 < 8 := by omega
      have hr1 : cp / 4096 % 64 < 64 := by omega
      have hr2 : cp / 64 % 64 < 64 := by omega
      have hr3 : cp % 64 < 64 := by omega
      rw [utf8encode, if_neg (by omega), if_neg (by omega), if_neg (by omega)]
      show UTF8decodeStep (UTF8decodeStep (UTF8decodeStep (UTF8decodeStep
        FKey_None (240 + cp / 262144)) (128 + cp / 4096 % 64))
        (128 + cp / 64 % 64)) (128 + cp % 64) = cp
      rw [UTF8decodeStep_lead4 _ _ hs, UTF8decodeStep_cont _ _ hr1 (by omega),
        UTF8decodeStep_cont _ _ hr2 (by omega),
        UTF8decodeStep_cont _ _ hr3 (by omega)]
      omega

/-- Witness for claim C7 at the euro sign, code point 0x20AC. -/
theorem utf8_encode_decode_round_trip_witness :
    UTF8decode (utf8encode 8364) = 8364 :=
  utf8_encode_decode_round_trip 8364 (by decide) (by decide)

/-- Claim C9: consuming `n` bytes from the front of a well-formed buffer
(512 cells, zero beyond the valid offset) leaves the buffer equal to the old
contents shifted left by `n` with the vacated tail zero-filled, and sets the
has-unprocessed-data flag to true iff the first remaining byte is non-zero;
consuming the whole valid length leaves the flag false. -/
theorem consume_front_shift_zero_fill_flag (st : KState) (n : Nat)
    (hlen : st.fifo_buf.length = FIFO_BUF_SIZE)
    (hoff : st.fifo_offset ≤ FIFO_BUF_SIZE)
    (hn : n ≤ st.fifo_offset)
    (htail : ∀ i, i < FIFO_BUF_SIZE → st.fifo_offset ≤ i → byteAt st.fifo_buf i = 0) :
    (consumeState st n).fifo_buf = st.fifo_buf.drop n ++ List.replicate n 0 ∧
    ((consumeState st n).unprocessed_buffer_data = true ↔ byteAt st.fifo_buf n ≠ 0) ∧
    (n = st.fifo_offset → (consumeState st n).unprocessed_buffer_data = false) := by
  have hfirst : byteAt (removeFront st.fifo_buf n) 0 = byteAt st.fifo_buf n := by
    rw [removeFront_byteAt st.fifo_buf n hlen 0]
    by_cases c : 0 < FIFO_BUF_SIZE - n
    · rw [if_pos c, Nat.zero_add]
    · rw [if_neg c]
      have hbig : FIFO_BUF_SIZE ≤ n := by omega
      rw [byteAt_of_length_le _ _ (by omega)]
  refine ⟨?_, ?_, ?_⟩
  · show removeFront st.fifo_buf n = _
    exact removeFront_eq st.fifo_buf n hlen (by omega)
  · show (byteAt (removeFront st.fifo_buf n) 0 != 0) = true ↔ _
    rw [hfirst]
    constructor
    · intro h
      simpa using h
    · intro h
      simpa using h
  · intro heq
    show (byteAt (removeFront st.fifo_buf n) 0 != 0) = false
    rw [hfirst]
    by_cases c : n < FIFO_BUF_SIZE
    · rw [htail n c (by omega)]
      rfl
    · rw [byteAt_of_length_le _ _ (by omega)]
      rfl

/-- Witness for claim C9: consuming 2 of the 3 valid bytes of a concrete
buffer leaves the third byte at the front (flag set), shifted and
zero-filled as described. -/
theorem consume_front_shift_zero_fill_flag_witness :
    (consumeState (mkState [5, 6, 7] true []) 2).fifo_buf =
      (mkState [5, 6, 7] true []).fifo_buf.drop 2 ++ List.replicate 2 0 ∧
    ((consumeState (mkState [5, 6, 7] true []) 2).unprocessed_buffer_data = true ↔
      byteAt (mkState [5, 6, 7] true []).fifo_buf 2 ≠ 0) ∧
    (2 = (mkState [5, 6, 7] true []).fifo_offset →
      (consumeState (mkState [5, 6, 7] true []) 2).unprocessed_buffer_data = false) :=
  consume_front_shift_zero_fill_flag (mkState [5, 6, 7] true []) 2
    (by decide) (by decide) (by decide) (by decide)

/-- Claim C5: with mouse reporting enabled and the buffer starting with the
escape byte, `getMouseProtocolKey` returns the X11 / SGR / urxvt mouse
identifiers exactly under the claimed conditions on the buffer bytes and
length, returns `NOT_SET` otherwise, and a mouse match makes the classifier
return with the state (hence the buffer) completely unchanged. -/
theorem mouse_protocol_detection_conditions (cfg : Config) (st : KState)
    (hm : cfg.mouse_support = true) (hesc : byteAt st.fifo_buf 0 = 27) :
    (getMouseProtocolKey cfg st = FKey_X11mouse ↔
      (st.fifo_offset ≥ 6 ∧ byteAt st.fifo_buf 1 = 91 ∧ byteAt st.fifo_buf 2 = 77)) ∧
    (getMouseProtocolKey cfg st = FKey_Extended_mouse ↔
      (byteAt st.fifo_buf 1 = 91 ∧ byteAt st.fifo_buf 2 = 60 ∧ st.fifo_offset ≥ 9 ∧
        (byteAt st.fifo_buf (st.fifo_offset - 1) = 77 ∨
          byteAt st.fifo_buf (st.fifo_offset - 1) = 109))) ∧
    (getMouseProtocolKey cfg st = FKey_Urxvt_mouse ↔
      (byteAt st.fifo_buf 1 = 91 ∧
        49 ≤ byteAt st.fifo_buf 2 ∧ byteAt st.fifo_buf 2 ≤ 57 ∧
        48 ≤ byteAt st.fifo_buf 3 ∧ byteAt st.fifo_buf 3 ≤ 57 ∧
        st.fifo_offset ≥ 9 ∧ byteAt st.fifo_buf (st.fifo_offset - 1) = 77)) ∧
    (∀ tout, getMouseProtocolKey cfg st ≠ FKey_NOT_SET →
      parseKeyString cfg tout st = (getMouseProtocolKey cfg st, st)) := by
  have hsupport : ¬ ¬ (cfg.mouse_support = true) := by rw [hm]; simp
  have hparse : ∀ tout, getMouseProtocolKey cfg st ≠ FKey_NOT_SET →
      parseKeyString cfg tout st = (getMouseProtocolKey cfg st, st) := by
    intro tout hne
    rw [parseKeyString, if_pos hesc, if_pos hne]
  by_cases hA : st.fifo_offset ≥ 6 ∧ byteAt st.fifo_buf 1 = 91 ∧ byteAt st.fifo_buf 2 = 77
  · have hres : getMouseProtocolKey cfg st = FKey_X11mouse := by
      rw [getMouseProtocolKey, if_neg hsupport, if_pos hA]
    rw [hres]
    refine ⟨⟨fun _ => hA, fun _ => rfl⟩, ⟨fun h => absurd h (by decide), ?_⟩,
      ⟨fun h => absurd h (by decide), ?_⟩, fun tout _ => by
        rw [hparse tout (by rw [hres]; decide), hres]⟩
    · rintro ⟨-, h60, -⟩
      omega
    · rintro ⟨-, h49, h57, -⟩
      omega
  · by_cases hB : byteAt st.fifo_buf 1 = 91 ∧ byteAt st.fifo_buf 2 = 60 ∧
        st.fifo_offset ≥ 9 ∧ (byteAt st.fifo_buf (st.fifo_offset - 1) = 77 ∨
          byteAt st.fifo_buf (st.fifo_offset - 1) = 109)
    · have hres : getMouseProtocolKey cfg st = FKey_Extended_mouse := by
        rw [getMouseProtocolKey, if_neg hsupport, if_neg hA, if_pos hB]
      rw [hres]
      refine ⟨⟨fun h => absurd h (by decide), ?_⟩, ⟨fun _ => hB, fun _ => rfl⟩,
        ⟨fun h => absurd h (by decide), ?_⟩, fun tout _ => by
          rw [hparse tout (by rw [hres]; decide), hres]⟩
      · rintro ⟨-, -, h77⟩
        omega
      · rintro ⟨-, h49, h57, -⟩
        omega
    · by_cases hC : byteAt st.fifo_buf 1 = 91 ∧
          49 ≤ byteAt st.fifo_buf 2 ∧ byteAt st.fifo_buf 2 ≤ 57 ∧
          48 ≤ byteAt st.fifo_buf 3 ∧ byteAt st.fifo_buf 3 ≤ 57 ∧
          st.fifo_offset ≥ 9 ∧ byteAt st.fifo_buf (st.fifo_offset - 1) = 77
      · have hres : getMouseProtocolKey cfg st = FKey_Urxvt_mouse := by
          rw [getMouseProtocolKey, if_neg hsupport, if_neg hA, if_neg hB, if_pos hC]
        rw [hres]
        refine ⟨⟨fun h => absurd h (by decide), ?_⟩,
          ⟨fun h => absurd h (by decide), ?_⟩, ⟨fun _ => hC, fun _ => rfl⟩,
          fun tout _ => by rw [hparse tout (by rw [hres]; decide), hres]⟩
        · rintro ⟨-, -, h77⟩
          omega
        · rintro ⟨-, h60, -⟩
          omega
      · have hres : getMouseProtocolKey cfg st = FKey_NOT_SET := by
          rw [getMouseProtocolKey, if_neg hsupport, if_neg hA, if_neg hB, if_neg hC]
        rw [hres]
        exact ⟨⟨fun h => absurd h (by decide), fun h => absurd h hA⟩,
          ⟨fun h => absurd h (by decide), fun h => absurd h hB⟩,
          ⟨fun h => absurd h (by decide), fun h => absurd h hC⟩,
          fun tout h => absurd rfl h⟩

/-- Witness for claim C5: a concrete six-byte X11 mouse report buffer with
mouse support enabled resolves to the X11 mouse identifier. -/
theorem mouse_protocol_detection_conditions_witness :
    getMouseProtocolKey ⟨true, false, none, []⟩
      (mkState [27, 91, 77, 32, 33, 33] true []) = FKey_X11mouse :=
  (mouse_protocol_detection_conditions ⟨true, false, none, []⟩
    (mkState [27, 91, 77, 32, 33, 33] true []) (by decide) (by decide)).1.mpr
    (by decide)

/-- Claim C6: when the generic-table scan finds an entry matching the buffer
exactly (equal length and content), `getKnownKey` reports `Incomplete` and
leaves the state (hence the buffer) untouched precisely when the matched
length is exactly 2, the second buffer byte is one of 79, 91, 93 (capital O,
left bracket, right bracket) and the key timeout has not yet elapsed; every
other exact match consumes the matched length from the buffer front and
returns that entry key identifier. -/
theorem known_key_exact_match_behaviour (cfg : Config) (tout : Bool)
    (st : KState) (e : FKeyMapEntry)
    (hfind : findMapEntry cfg.key_map st.fifo_buf st.fifo_offset = some e) :
    (e.length = 2 ∧
        (byteAt st.fifo_buf 1 = 79 ∨ byteAt st.fifo_buf 1 = 91 ∨
          byteAt st.fifo_buf 1 = 93) ∧ tout = false →
      getKnownKey cfg tout st = (FKey_Incomplete, st)) ∧
    (¬ (e.length = 2 ∧
        (byteAt st.fifo_buf 1 = 79 ∨ byteAt st.fifo_buf 1 = 91 ∨
          byteAt st.fifo_buf 1 = 93) ∧ tout = false) →
      getKnownKey cfg tout st = (e.num, consumeState st e.length)) := by
  constructor
  · rintro ⟨h2, hb, ht⟩
    rw [getKnownKey, hfind]
    show (if e.length = 2 ∧
        (byteAt st.fifo_buf 1 = 79 ∨ byteAt st.fifo_buf 1 = 91 ∨
          byteAt st.fifo_buf 1 = 93) ∧ ¬ tout then (FKey_Incomplete, st)
      else (e.num, consumeState st e.length)) = (FKey_Incomplete, st)
    rw [if_pos ⟨h2, hb, by rw [ht]; simp⟩]
  · intro hno
    rw [getKnownKey, hfind]
    show (if e.length = 2 ∧
        (byteAt st.fifo_buf 1 = 79 ∨ byteAt st.fifo_buf 1 = 91 ∨
          byteAt st.fifo_buf 1 = 93) ∧ ¬ tout then (FKey_Incomplete, st)
      else (e.num, consumeState st e.length)) = (e.num, consumeState st e.length)
    rw [if_neg]
    intro hyes
    apply hno
    refine ⟨hyes.1, hyes.2.1, ?_⟩
    have h := hyes.2.2
    cases tout
    · rfl
    · exact absurd rfl h

/-- Witness for claim C6: the two-byte buffer `ESC [` exactly matching a
two-byte generic-table entry is reported `Incomplete` before the timeout,
and the same buffer is consumed with the entry key after the timeout. -/
theorem known_key_exact_match_behaviour_witness :
    (getKnownKey ⟨false, false, none, [⟨[27, 91], 2, 777⟩]⟩ false
        (mkState [27, 91] true []) =
      (FKey_Incomplete, mkState [27, 91] true [])) ∧
    (getKnownKey ⟨false, false, none, [⟨[27, 91], 2, 777⟩]⟩ true
        (mkState [27, 91] true []) =
      (777, consumeState (mkState [27, 91] true []) 2)) :=
  ⟨(known_key_exact_match_behaviour ⟨false, false, none, [⟨[27, 91], 2, 777⟩]⟩
      false (mkState [27, 91] true []) ⟨[27, 91], 2, 777⟩ (by decide)).1
      (by decide),
    (known_key_exact_match_behaviour ⟨false, false, none, [⟨[27, 91], 2, 777⟩]⟩
      true (mkState [27, 91] true []) ⟨[27, 91], 2, 777⟩ (by decide)).2
      (by decide)⟩

/-- Claim C3, counterexample.  The claim states that a raw decoded value of
127 is returned as the Backspace identifier on every resolution path,
including the table lookups; but the generic-table path returns the stored
entry value unchanged: with a table entry mapping `ESC x` to the raw value
127, the classifier returns 127 itself, not `FKey_Backspace`. -/
theorem table_lookup_raw_127_counterexample :
    (parseKeyString ⟨false, false, none, [⟨[27, 120], 2, 127⟩]⟩ true
        (mkState [27, 120] true [])).1 = 127 ∧ (127 : Nat) ≠ FKey_Backspace := by
  constructor
  · rw [parseKeyString_esc_known ⟨false, false, none, [⟨[27, 120], 2, 127⟩]⟩ true
      (mkState [27, 120] true []) ⟨[27, 120], 2, 127⟩ (by decide) (by decide) rfl
      (by decide) (by decide) (by decide)]
  · decide

/-- Claim C3, amended: the numeric remaps (decoded 0 to `Ctrl_space`,
decoded 127 to `Backspace`) are applied exactly on the single/UTF-8
character fallback path: `getSingleKey` returns the
`ctrlSpaceBackspaceSubstitution` of its raw decoded value (both in the
single-byte and in the UTF-8 decode sub-path), while the generic-table and
termcap-table lookups return the matched entry value unchanged. -/
theorem remap_only_on_single_key_path :
    (∀ cfg tout st, getSingleKey cfg tout st =
      (ctrlSpaceBackspaceSubstitution (getSingleKeyRaw cfg tout st).1,
        (getSingleKeyRaw cfg tout st).2)) ∧
    (∀ (cfg : Config) (tout : Bool) (st : KState) (e : FKeyMapEntry),
      findMapEntry cfg.key_map st.fifo_buf st.fifo_offset = some e →
      ¬ (e.length = 2 ∧
          (byteAt st.fifo_buf 1 = 79 ∨ byteAt st.fifo_buf 1 = 91 ∨
            byteAt st.fifo_buf 1 = 93) ∧ ¬ tout) →
      (getKnownKey cfg tout st).1 = e.num) ∧
    (∀ (cfg : Config) (st : KState) (table : List FKeyMapEntry) (e : FKeyMapEntry),
      cfg.key_cap_ptr = some table →
      findCapEntry table st.fifo_buf st.fifo_offset = some e →
      (getTermcapKey cfg st).1 = e.num) := by
  have hsub : ctrlSpaceBackspaceSubstitution FKey_Incomplete = FKey_Incomplete := by
    decide
  refine ⟨?_, ?_, ?_⟩
  · intro cfg tout st
    simp only [getSingleKey, getSingleKeyRaw]
    split_ifs
    all_goals simp [hsub]
  · intro cfg tout st e hfind hno
    rw [getKnownKey, hfind]
    show (if e.length = 2 ∧
        (byteAt st.fifo_buf 1 = 79 ∨ byteAt st.fifo_buf 1 = 91 ∨
          byteAt st.fifo_buf 1 = 93) ∧ ¬ tout then (FKey_Incomplete, st)
      else (e.num, consumeState st e.length)).1 = e.num
    rw [if_neg hno]
  · intro cfg st table e hcap hfind
    rw [getTermcapKey, hcap]
    show (match findCapEntry table st.fifo_buf st.fifo_offset with
      | none => (FKey_NOT_SET, st)
      | some e => (e.num, consumeState st e.length)).1 = e.num
    rw [hfind]

/-- Witness for the amended claim C3: the generic-table lookup returns the
stored value 777 unchanged on a concrete matched buffer after the timeout. -/
theorem remap_only_on_single_key_path_witness :
    (getKnownKey ⟨false, false, none, [⟨[27, 121], 2, 777⟩]⟩ true
        (mkState [27, 121] true [])).1 = 777 :=
  remap_only_on_single_key_path.2.1 ⟨false, false, none, [⟨[27, 121], 2, 777⟩]⟩
    true (mkState [27, 121] true []) ⟨[27, 121], 2, 777⟩ (by decide) (by decide)

theorem byteBounded_consumeState (st : KState) (len : Nat)
    (h : byteBounded st) : byteBounded (consumeState st len) := by
  obtain ⟨hlen, hb⟩ := h
  constructor
  · show (removeFront st.fifo_buf len).length = FIFO_BUF_SIZE
    rw [removeFront_length, hlen]
  · intro i hi
    show byteAt (removeFront st.fifo_buf len) i < 256
    rw [removeFront_byteAt st.fifo_buf len hlen i]
    by_cases c : i < FIFO_BUF_SIZE - len
    · rw [if_pos c]
      exact hb (i + len) (by omega)
    · rw [if_neg c]
      omega

theorem byteBounded_getTermcapKey (cfg : Config) (st : KState)
    (h : byteBounded st) : byteBounded (getTermcapKey cfg st).2 := by
  rw [getTermcapKey]
  cases hc : cfg.key_cap_ptr with
  | none => exact h
  | some table =>
    show byteBounded (match findCapEntry table st.fifo_buf st.fifo_offset with
      | none => (FKey_NOT_SET, st)
      | some e => (e.num, consumeState st e.length)).2
    cases hf : findCapEntry table st.fifo_buf st.fifo_offset with
    | none => exact h
    | some e => exact byteBounded_consumeState st e.length h

theorem byteBounded_getKnownKey (cfg : Config) (tout : Bool) (st : KState)
    (h : byteBounded st) : byteBounded (getKnownKey cfg tout st).2 := by
  rw [getKnownKey]
  cases hf : findMapEntry cfg.key_map st.fifo_buf st.fifo_offset with
  | none => exact h
  | some e =>
    show byteBounded (if e.length = 2 ∧
        (byteAt st.fifo_buf 1 = 79 ∨ byteAt st.fifo_buf 1 = 91 ∨
          byteAt st.fifo_buf 1 = 93) ∧ ¬ tout then (FKey_Incomplete, st)
      else (e.num, consumeState st e.length)).2
    by_cases hcond : e.length = 2 ∧
        (byteAt st.fifo_buf 1 = 79 ∨ byteAt st.fifo_buf 1 = 91 ∨
          byteAt st.fifo_buf 1 = 93) ∧ ¬ tout
    · rw [if_pos hcond]
      exact h
    · rw [if_neg hcond]
      exact byteBounded_consumeState st e.length h

theorem substitution_of_byte_ne_not_set :
    ∀ k, k < 256 → ctrlSpaceBackspaceSubstitution k ≠ FKey_NOT_SET := by decide

/-- Claim C10, counterexample.  The claim states that `parseKeyString` never
returns the internal `NOT_SET` sentinel because the single/UTF-8 fallback
always produces a result; but a malformed UTF-8 sequence (lead byte 0xC3
followed by the invalid byte 0xFF) makes `UTF8decode` produce `NOT_SET`,
which `getSingleKey` and hence `parseKeyString` return, and which the read
loop then even pushes onto the event queue. -/
theorem parse_key_string_not_set_escape_counterexample :
    (parseKeyString ⟨false, true, none, []⟩ false
        (mkState [195, 255] true [])).1 = FKey_NOT_SET ∧
    (parseKeyBuffer ⟨false, true, none, []⟩ [(195, false), (255, false)]
        (mkState [] false [])).fkey_queue = [FKey_NOT_SET] := by
  constructor
  · rw [parseKeyString_nonesc ⟨false, true, none, []⟩ false
      (mkState [195, 255] true []) (by decide)]
    rw [getSingleKey_utf8_two ⟨false, true, none, []⟩ false
      (mkState [195, 255] true []) (by decide) (by decide) (by decide)]
    decide
  · have hs1 : parseKeyBufferStep ⟨false, true, none, []⟩ 195 false
        (mkState [] false []) = mkState [195] true [] := by
      rw [parseKeyBufferStep_eq _ _ _ _ (by decide)]
      have ha : appendByte (mkState [] false []) 195 = mkState [195] true [] := by
        decide
      rw [ha]
      have hp := parseKeyString_nonesc ⟨false, true, none, []⟩ false
        (mkState [195] true []) (by decide)
      rw [getSingleKey_utf8_two_incomplete ⟨false, true, none, []⟩ false
        (mkState [195] true []) (by decide) (by decide) (by decide)] at hp
      rw [parseLoop_incomplete_step _ _ FIFO_BUF_SIZE _ (by decide) hp]
      decide
    have hs2 : parseKeyBufferStep ⟨false, true, none, []⟩ 255 false
        (mkState [195] true []) = mkState [] true [FKey_NOT_SET] := by
      rw [parseKeyBufferStep_eq _ _ _ _ (by decide)]
      have ha : appendByte (mkState [195] true []) 255 =
          mkState [195, 255] true [] := by decide
      rw [ha]
      have hp := parseKeyString_nonesc ⟨false, true, none, []⟩ false
        (mkState [195, 255] true []) (by decide)
      rw [getSingleKey_utf8_two ⟨false, true, none, []⟩ false
        (mkState [195, 255] true []) (by decide) (by decide) (by decide)] at hp
      rw [consumeState_mkBuf (mkState [195, 255] true []) [195, 255] 2 rfl
        (by decide) (by decide)] at hp
      rw [show ctrlSpaceBackspaceSubstitution (UTF8decode (cString
          ((mkState [195, 255] true []).fifo_buf.take 2))) = FKey_NOT_SET from
        by decide] at hp
      rw [parseLoop_push_step _ _ FIFO_BUF_SIZE _
        (⟨mkBuf [], 0, true, false, FKey_NOT_SET, FKey_None, [FKey_NOT_SET],
          false⟩ : KState)
        (by decide) hp (by decide) (by decide) (by decide)]
      rw [parseLoop_exit _ _ _ _ (by decide)]
      decide
    rw [parseKeyBuffer, parseKeyBufferLoop_cons, hs1, if_neg (by decide),
      parseKeyBufferLoop_cons, hs2, if_neg (by decide)]
    decide

/-- Claim C10, amended: for every well-formed buffer state, when UTF-8
decoding is disabled `parseKeyString` returns only `Incomplete` or a
resolved key identifier, never the internal `NOT_SET` sentinel; with UTF-8
decoding enabled the single-character fallback can return `NOT_SET` for a
malformed multi-byte sequence (see the counterexample). -/
theorem parse_key_string_no_not_set_when_utf8_disabled (cfg : Config)
    (tout : Bool) (st : KState) (hutf : cfg.utf8_input = false)
    (hwf : byteBounded st) :
    (parseKeyString cfg tout st).1 ≠ FKey_NOT_SET := by
  have hsingle : ∀ st2 : KState, byteBounded st2 →
      (getSingleKey cfg tout st2).1 ≠ FKey_NOT_SET := by
    intro st2 h2
    have hni : ¬ (cfg.utf8_input ∧ byteAt st2.fifo_buf 0 &&& 192 = 192) := by
      rw [hutf]; simp
    simp only [getSingleKey]
    rw [if_neg hni]
    exact substitution_of_byte_ne_not_set (byteAt st2.fifo_buf 0)
      (h2.2 0 (by decide))
  rw [parseKeyString]
  by_cases hesc : byteAt st.fifo_buf 0 = 27
  · rw [if_pos hesc]
    by_cases h1 : getMouseProtocolKey cfg st ≠ FKey_NOT_SET
    · rw [if_pos h1]
      exact h1
    · rw [if_neg h1]
      by_cases h2 : (getTermcapKey cfg st).1 ≠ FKey_NOT_SET
      · rw [if_pos h2]
        exact h2
      · rw [if_neg h2]
        by_cases h3 : (getKnownKey cfg tout (getTermcapKey cfg st).2).1 ≠ FKey_NOT_SET
        · rw [if_pos h3]
          exact h3
        · rw [if_neg h3]
          by_cases h4 : ¬ tout
          · rw [if_pos h4]
            show FKey_Incomplete ≠ FKey_NOT_SET
            decide
          · rw [if_neg h4]
            exact hsingle _ (byteBounded_getKnownKey cfg tout _
              (byteBounded_getTermcapKey cfg st hwf))
  · rw [if_neg hesc]
    exact hsingle st hwf

/-- Witness for the amended claim C10 on a concrete well-formed state with
UTF-8 decoding disabled. -/
theorem parse_key_string_no_not_set_when_utf8_disabled_witness :
    (parseKeyString ⟨false, false, none, []⟩ false
        (mkState [195, 255] true [])).1 ≠ FKey_NOT_SET :=
  parse_key_string_no_not_set_when_utf8_disabled ⟨false, false, none, []⟩
    false (mkState [195, 255] true []) (by decide) (by decide)

/-- Claim C8: with the buffer holding exactly the two bytes escape plus 79,
91 or 93 (capital O, left bracket, right bracket), once the timeout has
elapsed `substringKeyHandling` enqueues exactly the corresponding Meta key
and clears the buffer bookkeeping (offset 0, in-use false, unprocessed-data
false); before the timeout it changes nothing.  The two concrete scenarios:
`ESC [` alone after the timeout yields exactly one Meta-left-bracket event,
while `ESC [ D` arriving before the timeout yields the arrow key of the
matching three-byte table entry and never the Meta event. -/
theorem substring_meta_key_handling :
    (∀ (tout : Bool) (st : KState) (c : Nat),
      st.fifo_in_use = true → st.fifo_offset = 2 →
      byteAt st.fifo_buf 0 = 27 → byteAt st.fifo_buf 1 = c →
      (c = 79 ∨ c = 91 ∨ c = 93) → byteAt st.fifo_buf 2 = 0 → tout = true →
      substringKeyHandling tout st =
        { st with fifo_offset := 0
                  fifo_buf := st.fifo_buf.set 0 0
                  fifo_in_use := false
                  unprocessed_buffer_data := false
                  fkey := if c = 79 then FKey_Meta_O
                    else if c = 91 then FKey_Meta_left_square_bracket
                    else FKey_Meta_right_square_bracket
                  fkey_queue := st.fkey_queue ++
                    [if c = 79 then FKey_Meta_O
                     else if c = 91 then FKey_Meta_left_square_bracket
                     else FKey_Meta_right_square_bracket] }) ∧
    (∀ (tout : Bool) (st : KState), tout = false →
      substringKeyHandling tout st = st) ∧
    ((substringKeyHandling false
        (parseKeyBuffer ⟨false, false, none, [⟨[27, 91, 68], 3, 8888⟩]⟩
          [(27, false), (91, false), (68, false)]
          (mkState [] false []))).fkey_queue = [8888]) ∧
    ((substringKeyHandling true
        (parseKeyBuffer ⟨false, false, none, [⟨[27, 91, 68], 3, 8888⟩]⟩
          [(27, false), (91, false)]
          (mkState [] false []))).fkey_queue =
      [FKey_Meta_left_square_bracket]) := by
  refine ⟨?_, ?_, ?_, by decide⟩
  · intro tout st c hiu hoff hb0 hb1 hcs hb2 htout
    have hcond : st.fifo_in_use = true ∧ st.fifo_offset = 2 ∧
        byteAt st.fifo_buf 0 = 27 ∧
        (byteAt st.fifo_buf 1 = 79 ∨ byteAt st.fifo_buf 1 = 91 ∨
          byteAt st.fifo_buf 1 = 93) ∧
        byteAt st.fifo_buf 2 = 0 ∧ tout = true :=
      ⟨hiu, hoff, hb0, by rw [hb1]; exact hcs, hb2, htout⟩
    rw [substringKeyHandling, if_pos hcond]
    have hset1 : byteAt (st.fifo_buf.set 0 0) 1 = c := by
      rw [byteAt_set_ne _ 0 1 _ (by omega), hb1]
    simp only [hset1]
  · intro tout st htout
    rw [substringKeyHandling, if_neg]
    intro hcond
    rw [htout] at hcond
    simpa using hcond.2.2.2.2.2
  · have hb1 : parseKeyBufferStep ⟨false, false, none, [⟨[27, 91, 68], 3, 8888⟩]⟩
        27 false (mkState [] false []) = mkState [27] true [] := by decide
    have hb2 : parseKeyBufferStep ⟨false, false, none, [⟨[27, 91, 68], 3, 8888⟩]⟩
        91 false (mkState [27] true []) = mkState [27, 91] true [] := by decide
    have hb3 : parseKeyBufferStep ⟨false, false, none, [⟨[27, 91, 68], 3, 8888⟩]⟩
        68 false (mkState [27, 91] true []) = mkState [] true [8888] := by
      rw [parseKeyBufferStep_eq _ _ _ _ (by decide)]
      have ha : appendByte (mkState [27, 91] true []) 68 =
          mkState [27, 91, 68] true [] := by decide
      rw [ha]
      have hp := parseKeyString_esc_known
        ⟨false, false, none, [⟨[27, 91, 68], 3, 8888⟩]⟩ false
        (mkState [27, 91, 68] true []) ⟨[27, 91, 68], 3, 8888⟩ (by decide)
        (by decide) rfl (by decide) (by decide) (by decide)
      dsimp only at hp
      rw [consumeState_mkBuf (mkState [27, 91, 68] true []) [27, 91, 68] 3 rfl
        (by decide) (by decide)] at hp
      rw [parseLoop_push_step _ _ FIFO_BUF_SIZE _
        (⟨mkBuf [], 0, true, false, 8888, FKey_None, [8888], false⟩ : KState)
        (by decide) hp (by decide) (by decide) (by decide)]
      rw [parseLoop_exit _ _ _ _ (by decide)]
      decide
    rw [parseKeyBuffer, parseKeyBufferLoop_cons, hb1, if_neg (by decide),
      parseKeyBufferLoop_cons, hb2, if_neg (by decide),
      parseKeyBufferLoop_cons, hb3, if_neg (by decide)]
    decide

/-- Witness for claim C8: the concrete `ESC [` buffer after the timeout
produces the Meta-left-bracket event and the cleared bookkeeping, while the
same buffer before the timeout is left untouched. -/
theorem substring_meta_key_handling_witness :
    (substringKeyHandling true (mkState [27, 91] true []) =
      { mkState [27, 91] true [] with
          fifo_offset := 0
          fifo_buf := (mkState [27, 91] true []).fifo_buf.set 0 0
          fifo_in_use := false
          unprocessed_buffer_data := false
          fkey := FKey_Meta_left_square_bracket
          fkey_queue := [FKey_Meta_left_square_bracket] }) ∧
    (substringKeyHandling false (mkState [27, 91] true []) =
      mkState [27, 91] true []) := by
  constructor
  · have h := substring_meta_key_handling.1 true (mkState [27, 91] true []) 91
      (by decide) (by decide) (by decide) (by decide) (by decide) (by decide) rfl
    rw [h]
    decide
  · exact substring_meta_key_handling.2.1 false (mkState [27, 91] true []) rfl

theorem consumeState_fkey_queue (st : KState) (len : Nat) :
    (consumeState st len).fkey_queue = st.fkey_queue := by
  unfold consumeState
  rfl

theorem getTermcapKey_queue (cfg : Config) (st : KState) :
    (getTermcapKey cfg st).2.fkey_queue = st.fkey_queue := by
  rw [getTermcapKey]
  cases cfg.key_cap_ptr with
  | none => rfl
  | some table =>
    show (match findCapEntry table st.fifo_buf st.fifo_offset with
      | none => (FKey_NOT_SET, st)
      | some e => (e.num, consumeState st e.length)).2.fkey_queue = st.fkey_queue
    cases findCapEntry table st.fifo_buf st.fifo_offset with
    | none => rfl
    | some e => exact consumeState_fkey_queue st e.length

theorem getKnownKey_queue (cfg : Config) (tout : Bool) (st : KState) :
    (getKnownKey cfg tout st).2.fkey_queue = st.fkey_queue := by
  rw [getKnownKey]
  cases findMapEntry cfg.key_map st.fifo_buf st.fifo_offset with
  | none => rfl
  | some e =>
    show (if e.length = 2 ∧
        (byteAt st.fifo_buf 1 = 79 ∨ byteAt st.fifo_buf 1 = 91 ∨
          byteAt st.fifo_buf 1 = 93) ∧ ¬ tout then (FKey_Incomplete, st)
      else (e.num, consumeState st e.length)).2.fkey_queue = st.fkey_queue
    split
    · rfl
    · exact consumeState_fkey_queue st e.length

theorem getSingleKey_queue (cfg : Config) (tout : Bool) (st : KState) :
    (getSingleKey cfg tout st).2.fkey_queue = st.fkey_queue := by
  simp only [getSingleKey]
  split_ifs <;> first | exact consumeState_fkey_queue st _ | rfl

theorem parseKeyString_queue (cfg : Config) (tout : Bool) (st : KState) :
    (parseKeyString cfg tout st).2.fkey_queue = st.fkey_queue := by
  rw [parseKeyString]
  by_cases hesc : byteAt st.fifo_buf 0 = 27
  · rw [if_pos hesc]
    by_cases h1 : getMouseProtocolKey cfg st ≠ FKey_NOT_SET
    · rw [if_pos h1]
    · rw [if_neg h1]
      by_cases h2 : (getTermcapKey cfg st).1 ≠ FKey_NOT_SET
      · rw [if_pos h2]
        exact getTermcapKey_queue cfg st
      · rw [if_neg h2]
        by_cases h3 :
            (getKnownKey cfg tout (getTermcapKey cfg st).2).1 ≠ FKey_NOT_SET
        · rw [if_pos h3]
          rw [getKnownKey_queue, getTermcapKey_queue]
        · rw [if_neg h3]
          by_cases h4 : ¬ tout
          · rw [if_pos h4]
            show (getKnownKey cfg tout (getTermcapKey cfg st).2).2.fkey_queue =
              st.fkey_queue
            rw [getKnownKey_queue, getTermcapKey_queue]
          · rw [if_neg h4]
            rw [getSingleKey_queue, getKnownKey_queue, getTermcapKey_queue]
  · rw [if_neg hesc]
    exact getSingleKey_queue cfg tout st

theorem parseLoop_queue_growth (cfg : Config) (tout : Bool) :
    ∀ (fuel : Nat) (st : KState),
      (parseLoop cfg tout fuel st).fkey_queue.length ≤
        st.fkey_queue.length + fuel := by
  intro fuel
  induction fuel with
  | zero =>
    intro st
    exact Nat.le_add_right _ _
  | succ fuel ih =>
    intro st
    rw [parseLoop]
    by_cases hc : st.fifo_offset > 0 ∧ st.fkey ≠ FKey_Incomplete
    · rw [if_pos hc]
      by_cases hm : keyCorrection (parseKeyString cfg tout st).1 = FKey_X11mouse ∨
          keyCorrection (parseKeyString cfg tout st).1 = FKey_Extended_mouse ∨
          keyCorrection (parseKeyString cfg tout st).1 = FKey_Urxvt_mouse
      · rw [if_pos hm]
        show ((parseKeyString cfg tout st).2.fkey_queue).length ≤ _
        rw [parseKeyString_queue]
        omega
      · rw [if_neg hm]
        by_cases hk : keyCorrection (parseKeyString cfg tout st).1 ≠ FKey_Incomplete
        · rw [if_pos hk]
          refine le_trans (ih _) ?_
          show ((parseKeyString cfg tout st).2.fkey_queue ++
            [keyCorrection (parseKeyString cfg tout st).1]).length + fuel ≤ _
          rw [List.length_append, parseKeyString_queue]
          simp
          omega
        · rw [if_neg hk]
          refine le_trans (ih _) ?_
          show ((parseKeyString cfg tout st).2.fkey_queue).length + fuel ≤ _
          rw [parseKeyString_queue]
          omega
    · rw [if_neg hc]
      exact Nat.le_add_right _ _

theorem parseKeyBufferStep_queue_growth (cfg : Config) (c : Nat) (tout : Bool)
    (st : KState) :
    (parseKeyBufferStep cfg c tout st).fkey_queue.length ≤
      st.fkey_queue.length + (FIFO_BUF_SIZE + 1) := by
  show (parseLoop cfg tout (FIFO_BUF_SIZE + 1) _).fkey_queue.length ≤ _
  refine le_trans (parseLoop_queue_growth cfg tout (FIFO_BUF_SIZE + 1) _) ?_
  have hq : (if 1 + st.fifo_offset ≤ FIFO_BUF_SIZE then
      ({ st with has_pending_input := false,
                 fifo_buf := st.fifo_buf.set st.fifo_offset c,
                 fifo_offset := st.fifo_offset + 1,
                 fifo_in_use := true } : KState)
    else { st with has_pending_input := false }).fkey_queue = st.fkey_queue := by
    split
    · rfl
    · rfl
  rw [hq]

theorem parseKeyBufferLoop_queue_bound (cfg : Config) :
    ∀ (input : List (Nat × Bool)) (st : KState),
      st.fkey_queue.length + 1 ≤ MAX_QUEUE_SIZE →
      (parseKeyBufferLoop cfg input st).fkey_queue.length ≤
        MAX_QUEUE_SIZE + FIFO_BUF_SIZE := by
  intro input
  induction input with
  | nil =>
    intro st h
    show st.fkey_queue.length ≤ _
    omega
  | cons cb rest ih =>
    obtain ⟨c, tout⟩ := cb
    intro st h
    have hgrow := parseKeyBufferStep_queue_growth cfg c tout st
    rw [parseKeyBufferLoop]
    by_cases hq : (parseKeyBufferStep cfg c tout st).fkey_queue.length ≥
        MAX_QUEUE_SIZE
    · rw [if_pos hq]
      omega
    · rw [if_neg hq]
      exact ih (parseKeyBufferStep cfg c tout st) (by omega)

/-- Claim C2, amended: decoding is never initiated while the queue is at
capacity (`fetchKeyCode` is then a no-op), and the read loop stops once the
queue has reached capacity; but the capacity check runs only between byte
reads, while the resolution cascade of one byte can enqueue several events,
so the queue length is bounded only by
`MAX_QUEUE_SIZE + FIFO_BUF_SIZE`, not by `MAX_QUEUE_SIZE` itself (the
counterexample exhibits an overshoot). -/
theorem fetch_key_code_queue_bound (cfg : Config) (input : List (Nat × Bool))
    (st : KState) (h : st.fkey_queue.length ≤ MAX_QUEUE_SIZE) :
    (st.fkey_queue.length ≥ MAX_QUEUE_SIZE → fetchKeyCode cfg input st = st) ∧
    (fetchKeyCode cfg input st).fkey_queue.length ≤
      MAX_QUEUE_SIZE + FIFO_BUF_SIZE := by
  constructor
  · intro hfull
    rw [fetchKeyCode, if_neg]
    omega
  · rw [fetchKeyCode]
    by_cases hlt : st.fkey_queue.length < MAX_QUEUE_SIZE
    · rw [if_pos hlt]
      exact parseKeyBufferLoop_queue_bound cfg input st (by omega)
    · rw [if_neg hlt]
      omega

/-- Witness for the amended claim C2 on a concrete empty decoder state. -/
theorem fetch_key_code_queue_bound_witness :
    ((mkState [] false []).fkey_queue.length ≥ MAX_QUEUE_SIZE →
      fetchKeyCode ⟨false, false, none, []⟩ [(97, false)] (mkState [] false []) =
        mkState [] false []) ∧
    (fetchKeyCode ⟨false, false, none, []⟩ [(97, false)]
        (mkState [] false [])).fkey_queue.length ≤
      MAX_QUEUE_SIZE + FIFO_BUF_SIZE :=
  fetch_key_code_queue_bound ⟨false, false, none, []⟩ [(97, false)]
    (mkState [] false []) (by decide)


theorem consumeState_queue_frame (st : KState) (len : Nat) (Q : List Nat) :
    consumeState { st with fkey_queue := Q } len =
      { consumeState st len with fkey_queue := Q } := rfl

theorem getTermcapKey_queue_frame (cfg : Config) (st : KState) (Q : List Nat) :
    getTermcapKey cfg { st with fkey_queue := Q } =
      ((getTermcapKey cfg st).1,
        { (getTermcapKey cfg st).2 with fkey_queue := Q }) := by
  rw [getTermcapKey, getTermcapKey]
  cases cfg.key_cap_ptr with
  | none => rfl
  | some table =>
    show (match findCapEntry table st.fifo_buf st.fifo_offset with
      | none => (FKey_NOT_SET, { st with fkey_queue := Q })
      | some e => (e.num, consumeState { st with fkey_queue := Q } e.length)) =
      ((match findCapEntry table st.fifo_buf st.fifo_offset with
        | none => (FKey_NOT_SET, st)
        | some e => (e.num, consumeState st e.length)).1,
       { (match findCapEntry table st.fifo_buf st.fifo_offset with
          | none => (FKey_NOT_SET, st)
          | some e => (e.num, consumeState st e.length)).2 with fkey_queue := Q })
    cases findCapEntry table st.fifo_buf st.fifo_offset with
    | none => rfl
    | some e =>
      show (e.num, consumeState { st with fkey_queue := Q } e.length) =
        ((e.num, consumeState st e.length).1,
          { (e.num, consumeState st e.length).2 with fkey_queue := Q })
      rw [consumeState_queue_frame]

theorem getKnownKey_queue_frame (cfg : Config) (tout : Bool) (st : KState)
    (Q : List Nat) :
    getKnownKey cfg tout { st with fkey_queue := Q } =
      ((getKnownKey cfg tout st).1,
        { (getKnownKey cfg tout st).2 with fkey_queue := Q }) := by
  rw [getKnownKey, getKnownKey]
  show (match findMapEntry cfg.key_map st.fifo_buf st.fifo_offset with
    | none => (FKey_NOT_SET, { st with fkey_queue := Q })
    | some e =>
      if e.length = 2 ∧
          (byteAt st.fifo_buf 1 = 79 ∨ byteAt st.fifo_buf 1 = 91 ∨
            byteAt st.fifo_buf 1 = 93) ∧ ¬ tout
      then (FKey_Incomplete, { st with fkey_queue := Q })
      else (e.num, consumeState { st with fkey_queue := Q } e.length)) =
    ((match findMapEntry cfg.key_map st.fifo_buf st.fifo_offset with
      | none => (FKey_NOT_SET, st)
      | some e =>
        if e.length = 2 ∧
            (byteAt st.fifo_buf 1 = 79 ∨ byteAt st.fifo_buf 1 = 91 ∨
              byteAt st.fifo_buf 1 = 93) ∧ ¬ tout
        then (FKey_Incomplete, st)
        else (e.num, consumeState st e.length)).1,
     { (match findMapEntry cfg.key_map st.fifo_buf st.fifo_offset with
        | none => (FKey_NOT_SET, st)
        | some e =>
          if e.length = 2 ∧
              (byteAt st.fifo_buf 1 = 79 ∨ byteAt st.fifo_buf 1 = 91 ∨
                byteAt st.fifo_buf 1 = 93) ∧ ¬ tout
          then (FKey_Incomplete, st)
          else (e.num, consumeState st e.length)).2 with fkey_queue := Q })
  cases findMapEntry cfg.key_map st.fifo_buf st.fifo_offset with
  | none => rfl
  | some e =>
    show (if e.length = 2 ∧
        (byteAt st.fifo_buf 1 = 79 ∨ byteAt st.fifo_buf 1 = 91 ∨
          byteAt st.fifo_buf 1 = 93) ∧ ¬ tout
      then (FKey_Incomplete, { st with fkey_queue := Q })
      else (e.num, consumeState { st with fkey_queue := Q } e.length)) =
      ((if e.length = 2 ∧
          (byteAt st.fifo_buf 1 = 79 ∨ byteAt st.fifo_buf 1 = 91 ∨
            byteAt st.fifo_buf 1 = 93) ∧ ¬ tout
        then (FKey_Incomplete, st)
        else (e.num, consumeState st e.length)).1,
       { (if e.length = 2 ∧
            (byteAt st.fifo_buf 1 = 79 ∨ byteAt st.fifo_buf 1 = 91 ∨
              byteAt st.fifo_buf 1 = 93) ∧ ¬ tout
          then (FKey_Incomplete, st)
          else (e.num, consumeState st e.length)).2 with fkey_queue := Q })
    split
    · rfl
    · show (e.num, consumeState { st with fkey_queue := Q } e.length) =
        ((e.num, consumeState st e.length).1,
          { (e.num, consumeState st e.length).2 with fkey_queue := Q })
      rw [consumeState_queue_frame]

theorem getSingleKey_queue_frame (cfg : Config) (tout : Bool) (st : KState)
    (Q : List Nat) :
    getSingleKey cfg tout { st with fkey_queue := Q } =
      ((getSingleKey cfg tout st).1,
        { (getSingleKey cfg tout st).2 with fkey_queue := Q }) := by
  simp only [getSingleKey]
  split_ifs <;> (try rw [consumeState_queue_frame]) <;> rfl

theorem getMouseProtocolKey_queue_frame (cfg : Config) (st : KState)
    (Q : List Nat) :
    getMouseProtocolKey cfg { st with fkey_queue := Q } =
      getMouseProtocolKey cfg st := rfl

theorem parseKeyString_queue_frame (cfg : Config) (tout : Bool) (st : KState)
    (Q : List Nat) :
    parseKeyString cfg tout { st with fkey_queue := Q } =
      ((parseKeyString cfg tout st).1,
        { (parseKeyString cfg tout st).2 with fkey_queue := Q }) := by
  simp only [parseKeyString]
  simp only [getMouseProtocolKey_queue_frame, getTermcapKey_queue_frame]
  simp only [getKnownKey_queue_frame]
  simp only [getSingleKey_queue_frame]
  split_ifs <;> rfl

theorem parseLoop_queue_frame (cfg : Config) (tout : Bool) :
    ∀ (fuel : Nat) (st1 st2 : KState) (Q : List Nat),
      st1 = { st2 with fkey_queue := Q ++ st2.fkey_queue } →
      parseLoop cfg tout fuel st1 =
      { parseLoop cfg tout fuel st2 with
          fkey_queue := Q ++ (parseLoop cfg tout fuel st2).fkey_queue } := by
  intro fuel
  induction fuel with
  | zero =>
    intro st1 st2 Q h
    rw [h]
    rfl
  | succ fuel ih =>
    intro st1 st2 Q h
    subst h
    simp only [parseLoop]
    simp only [parseKeyString_queue_frame]
    split_ifs with h1 h2 h3
    · rw [parseKeyString_queue]
    · refine ih _ _ Q ?_
      congr 1
      rw [parseKeyString_queue, List.append_assoc]
    · refine ih _ _ Q ?_
      congr 1
      rw [parseKeyString_queue]
    · rfl

theorem parseKeyBufferStep_queue_frame (cfg : Config) (c : Nat) (tout : Bool)
    (st : KState) (Q : List Nat) :
    parseKeyBufferStep cfg c tout { st with fkey_queue := Q ++ st.fkey_queue } =
      { parseKeyBufferStep cfg c tout st with
          fkey_queue := Q ++ (parseKeyBufferStep cfg c tout st).fkey_queue } := by
  simp only [parseKeyBufferStep]
  split_ifs with h1
  · rw [parseLoop_queue_frame cfg tout (FIFO_BUF_SIZE + 1) _
      { st with has_pending_input := false,
                fifo_buf := st.fifo_buf.set st.fifo_offset c,
                fifo_offset := st.fifo_offset + 1,
                fifo_in_use := true } Q rfl]
  · rw [parseLoop_queue_frame cfg tout (FIFO_BUF_SIZE + 1) _
      { st with has_pending_input := false } Q rfl]

theorem c2_step_lift (cfg : Config) (c : Nat) (tout : Bool)
    (content q content2 qadd : List Nat)
    (hbase : parseKeyBufferStep cfg c tout (mkState content true []) =
      mkState content2 true qadd) :
    parseKeyBufferStep cfg c tout (mkState content true q) =
      mkState content2 true (q ++ qadd) := by
  have h1 : mkState content true q =
      { mkState content true [] with
          fkey_queue := q ++ (mkState content true []).fkey_queue } := by
    show mkState content true q =
      { mkState content true [] with fkey_queue := q ++ [] }
    rw [List.append_nil]
    rfl
  rw [h1, parseKeyBufferStep_queue_frame, hbase]
  rfl

theorem c2_base_start :
    parseKeyBufferStep ⟨false, false, none, []⟩ 97 false (mkState [] false []) =
      mkState [] true [97] := by
  rw [parseKeyBufferStep_eq _ _ _ _ (by decide)]
  have ha : appendByte (mkState [] false []) 97 = mkState [97] true [] := by
    decide
  rw [ha]
  have hp := parseKeyString_nonesc ⟨false, false, none, []⟩ false
    (mkState [97] true []) (by decide)
  rw [getSingleKey_plain _ _ _ (by decide)] at hp
  rw [consumeState_mkBuf (mkState [97] true []) [97] 1 rfl (by decide)
    (by decide)] at hp
  rw [show ctrlSpaceBackspaceSubstitution
      (byteAt (mkState [97] true []).fifo_buf 0) = 97 from by decide] at hp
  rw [parseLoop_push_step _ _ FIFO_BUF_SIZE _
    (⟨mkBuf [], 0, true, false, 97, FKey_None, [97], false⟩ : KState)
    (by decide) hp (by decide) (by decide) (by decide)]
  rw [parseLoop_exit _ _ _ _ (by decide)]
  decide

theorem c2_base_single :
    parseKeyBufferStep ⟨false, false, none, []⟩ 97 false (mkState [] true []) =
      mkState [] true [97] := by
  rw [parseKeyBufferStep_eq _ _ _ _ (by decide)]
  have ha : appendByte (mkState [] true []) 97 = mkState [97] true [] := by
    decide
  rw [ha]
  have hp := parseKeyString_nonesc ⟨false, false, none, []⟩ false
    (mkState [97] true []) (by decide)
  rw [getSingleKey_plain _ _ _ (by decide)] at hp
  rw [consumeState_mkBuf (mkState [97] true []) [97] 1 rfl (by decide)
    (by decide)] at hp
  rw [show ctrlSpaceBackspaceSubstitution
      (byteAt (mkState [97] true []).fifo_buf 0) = 97 from by decide] at hp
  rw [parseLoop_push_step _ _ FIFO_BUF_SIZE _
    (⟨mkBuf [], 0, true, false, 97, FKey_None, [97], false⟩ : KState)
    (by decide) hp (by decide) (by decide) (by decide)]
  rw [parseLoop_exit _ _ _ _ (by decide)]
  decide

theorem c2_base_esc :
    parseKeyBufferStep ⟨false, false, none, []⟩ 27 false (mkState [] true []) =
      mkState [27] true [] := by decide

theorem c2_base_flush :
    parseKeyBufferStep ⟨false, false, none, []⟩ 97 true (mkState [27] true []) =
      mkState [] true [27, 97] := by
  rw [parseKeyBufferStep_eq _ _ _ _ (by decide)]
  have ha : appendByte (mkState [27] true []) 97 = mkState [27, 97] true [] := by
    decide
  rw [ha]
  have hp := parseKeyString_esc_timeout_single ⟨false, false, none, []⟩ true
    (mkState [27, 97] true []) (by decide) (by decide) rfl (by decide) rfl
  rw [getSingleKey_plain _ _ _ (by decide)] at hp
  rw [consumeState_mkBuf (mkState [27, 97] true []) [27, 97] 1 rfl (by decide)
    (by decide)] at hp
  rw [show ctrlSpaceBackspaceSubstitution
      (byteAt (mkState [27, 97] true []).fifo_buf 0) = 27 from by decide] at hp
  rw [parseLoop_push_step _ _ FIFO_BUF_SIZE _
    (⟨mkBuf [97], 1, true, true, 27, FKey_None, [27], false⟩ : KState)
    (by decide) hp (by decide) (by decide) (by decide)]
  have hp2 := parseKeyString_nonesc ⟨false, false, none, []⟩ true
    (⟨mkBuf [97], 1, true, true, 27, FKey_None, [27], false⟩ : KState) (by decide)
  rw [getSingleKey_plain _ _ _ (by decide)] at hp2
  rw [consumeState_mkBuf
    (⟨mkBuf [97], 1, true, true, 27, FKey_None, [27], false⟩ : KState) [97] 1 rfl
    (by decide) (by decide)] at hp2
  rw [show ctrlSpaceBackspaceSubstitution
      (byteAt ((⟨mkBuf [97], 1, true, true, 27, FKey_None, [27],
        false⟩ : KState)).fifo_buf 0) = 97 from by decide] at hp2
  rw [show FIFO_BUF_SIZE = 511 + 1 from by decide]
  rw [parseLoop_push_step _ _ 511 _
    (⟨mkBuf [], 0, true, false, 97, FKey_None, [27, 97], false⟩ : KState)
    (by decide) hp2 (by decide) (by decide) (by decide)]
  rw [parseLoop_exit _ _ _ _ (by decide)]
  decide

theorem c2_feed (rest : List (Nat × Bool)) :
    ∀ (n : Nat) (q : List Nat), q.length + n < MAX_QUEUE_SIZE →
      parseKeyBufferLoop ⟨false, false, none, []⟩
        (List.replicate n (97, false) ++ rest) (mkState [] true q) =
      parseKeyBufferLoop ⟨false, false, none, []⟩ rest
        (mkState [] true (q ++ List.replicate n 97)) := by
  intro n
  induction n with
  | zero =>
    intro q h
    simp
  | succ n ih =>
    intro q h
    have h10 : q.length + (n + 1) < 10000 := h
    rw [List.replicate_succ, List.cons_append, parseKeyBufferLoop_cons,
      c2_step_lift ⟨false, false, none, []⟩ 97 false [] q [] [97] c2_base_single]
    rw [if_neg (by
      show ¬ ((q ++ [97]).length ≥ MAX_QUEUE_SIZE)
      rw [List.length_append]
      show ¬ (q.length + 1 ≥ 10000)
      omega)]
    rw [ih (q ++ [97]) (by
      rw [List.length_append]
      show q.length + 1 + n < 10000
      omega)]
    rw [List.append_assoc]
    rfl

theorem c2_tail :
    ∀ (q : List Nat), q.length = 9999 →
      parseKeyBufferLoop ⟨false, false, none, []⟩ [(27, false), (97, true)]
        (mkState [] true q) =
      mkState [] true (q ++ [27, 97]) := by
  intro q hq
  rw [parseKeyBufferLoop_cons,
    c2_step_lift ⟨false, false, none, []⟩ 27 false [] q [27] [] c2_base_esc,
    List.append_nil]
  rw [if_neg (by
    show ¬ (q.length ≥ MAX_QUEUE_SIZE)
    show ¬ (q.length ≥ 10000)
    omega)]
  rw [parseKeyBufferLoop_cons,
    c2_step_lift ⟨false, false, none, []⟩ 97 true [27] q [] [27, 97] c2_base_flush]
  rw [if_pos (by
    show (q ++ [27, 97]).length ≥ MAX_QUEUE_SIZE
    rw [List.length_append]
    show q.length + 2 ≥ 10000
    omega)]

/-- Claim C2, counterexample.  Starting from the cleared decoder state, a
run of `fetchKeyCode` receives 9999 plain bytes (value 97), then an escape
byte, then one more byte after the key timeout: the queue-capacity check of
the read loop runs only between byte reads, while the final resolution
cascade pushes two events (escape and the byte 97) in one iteration, so the
queue ends holding 10001 > `MAX_QUEUE_SIZE` identifiers — the claimed bound
is exceeded and an enqueue is performed while the queue is already at
capacity. -/
theorem fetch_key_code_queue_overflow_counterexample :
    (fetchKeyCode ⟨false, false, none, []⟩
        ((97, false) :: (List.replicate 9998 (97, false) ++
          [(27, false), (97, true)]))
        (mkState [] false [])).fkey_queue.length = 10001 ∧
    10001 > MAX_QUEUE_SIZE := by
  constructor
  · have h0 : fetchKeyCode ⟨false, false, none, []⟩
        ((97, false) :: (List.replicate 9998 (97, false) ++
          [(27, false), (97, true)]))
        (mkState [] false []) =
        parseKeyBufferLoop ⟨false, false, none, []⟩
          ((97, false) :: (List.replicate 9998 (97, false) ++
            [(27, false), (97, true)]))
          (mkState [] false []) := by
      rw [fetchKeyCode, if_pos]
      · rfl
      · show ([] : List Nat).length < MAX_QUEUE_SIZE
        decide
    rw [h0, parseKeyBufferLoop_cons, c2_base_start]
    rw [if_neg (by
      show ¬ (([97] : List Nat).length ≥ MAX_QUEUE_SIZE)
      decide)]
    rw [c2_feed [(27, false), (97, true)] 9998 [97] (by
      show ([97] : List Nat).length + 9998 < MAX_QUEUE_SIZE
      decide)]
    rw [c2_tail ([97] ++ List.replicate 9998 97) (by
      rw [List.length_append, List.length_replicate]
      decide)]
    show (([97] ++ List.replicate 9998 97) ++ [27, 97]).length = 10001
    rw [List.length_append, List.length_append, List.length_replicate]
    decide
  · decide
